import Mathlib

/-!
Verification of the rcutils utility library against its natural-language
specification.  The C sources are shallowly embedded: machine pointers and
buffers become `List Char` / `Option (List Char)` values, fallible
allocations become explicit `Bool` success flags threaded through the
operations, and the process-global state of each subsystem becomes an
explicit structure that the operations transform.  Contents of
uninitialised memory are modelled by an arbitrary `junk` character that is
universally quantified in every theorem, so no result can depend on it.
-/

namespace Rcutils

/-- Return codes of the library (subset used by the embedded operations),
mirroring rcutils_ret_t. -/
inductive RcutilsRet where
  | RCUTILS_RET_OK
  | RCUTILS_RET_ERROR
  | RCUTILS_RET_BAD_ALLOC
  | RCUTILS_RET_INVALID_ARGUMENT
  | RCUTILS_RET_NOT_FOUND
  | RCUTILS_RET_HASH_MAP_NO_MORE_ENTRIES
  | RCUTILS_RET_LOGGING_SEVERITY_MAP_INVALID
  deriving DecidableEq, Repr

open RcutilsRet

/-- The NUL character terminating C strings. -/
def nulChar : Char := '\x00'

/-- `strlen`: number of characters before the first NUL.  For the
NUL-free lists used as abstract C strings this is just the length. -/
def strlen (s : List Char) : Nat := (s.takeWhile (fun c => c ≠ nulChar)).length

/-- The in-memory bytes of a C string: its characters followed by the
NUL terminator. -/
def cstr (s : List Char) : List Char := s ++ [nulChar]

/-- Reading `n` bytes starting at a buffer: bytes past the end of the
modelled list are unspecified memory, rendered as `junk`. -/
def memRead (junk : Char) (l : List Char) (n : Nat) : List Char :=
  l.take n ++ List.replicate (n - l.length) junk

/-- Writing a byte string into a buffer at an offset (memcpy semantics);
the buffer keeps its bytes outside the written window. -/
def writeAt (junk : Char) (buf : List Char) (off : Nat) (bytes : List Char) : List Char :=
  memRead junk buf off ++ bytes ++ buf.drop (off + bytes.length)

/-! ## Growable char array (src/char_array.c) -/

/-- rcutils_char_array_t.  `buffer = none` models a NULL buffer pointer. -/
structure rcutils_char_array_t where
  buffer : Option (List Char)
  buffer_length : Nat
  buffer_capacity : Nat
  owns_buffer : Bool
  deriving DecidableEq, Repr

/-- rcutils_get_zero_initialized_char_array. -/
def rcutils_get_zero_initialized_char_array : rcutils_char_array_t :=
  { buffer := none, owns_buffer := true, buffer_length := 0, buffer_capacity := 0 }

/-- rcutils_char_array_init.  `alloc_ok` is the success of the single
allocation; freshly allocated bytes are `junk` except buffer[0] which the
code sets to NUL. -/
def rcutils_char_array_init (junk : Char) (buffer_capacity : Nat) (alloc_ok : Bool) :
    RcutilsRet × rcutils_char_array_t :=
  let a : rcutils_char_array_t :=
    { buffer := none, owns_buffer := true, buffer_length := 0,
      buffer_capacity := buffer_capacity }
  if buffer_capacity > 0 then
    if alloc_ok then
      (RCUTILS_RET_OK,
        { a with buffer := some ((List.replicate buffer_capacity junk).set 0 nulChar) })
    else
      (RCUTILS_RET_BAD_ALLOC, { a with buffer_capacity := 0, buffer_length := 0 })
  else
    (RCUTILS_RET_OK, a)

/-- rcutils_reallocf (src/allocator.c): reallocate; on failure the
original pointer is deallocated and NULL returned.  Result is the new
buffer (if any) and whether the original allocation was deallocated by
the call. -/
def rcutils_reallocf (junk : Char) (pointer : Option (List Char)) (size : Nat)
    (realloc_ok : Bool) : Option (List Char) × Bool :=
  if realloc_ok then
    let old := pointer.getD []
    (some (old.take size ++ List.replicate (size - old.length) junk), false)
  else
    -- reallocate returned NULL: the original pointer is deallocated
    (none, true)

/-- rcutils_char_array_resize.  Returns the code, the updated array, and
whether the pre-existing buffer was deallocated during the call. -/
def rcutils_char_array_resize (junk : Char) (a : rcutils_char_array_t) (new_size : Nat)
    (alloc_ok : Bool) : RcutilsRet × rcutils_char_array_t × Bool :=
  if new_size = 0 then
    (RCUTILS_RET_INVALID_ARGUMENT, a, false)
  else if new_size = a.buffer_capacity then
    (RCUTILS_RET_OK, a, false)
  else
    let old_buf := a.buffer
    let old_size := a.buffer_capacity
    let old_length := a.buffer_length
    if a.owns_buffer then
      match rcutils_reallocf junk a.buffer new_size alloc_ok with
      | (none, freed) => (RCUTILS_RET_BAD_ALLOC, a, freed)
      | (some new_buf, freed) =>
        (RCUTILS_RET_OK,
          { a with buffer := some new_buf, buffer_capacity := new_size,
                   buffer_length := min new_size old_length }, freed)
    else
      match rcutils_char_array_init junk new_size alloc_ok with
      | (RCUTILS_RET_OK, a1) =>
        let n := min new_size old_size
        let copied := writeAt junk (a1.buffer.getD []) 0 (memRead junk (old_buf.getD []) n)
        (RCUTILS_RET_OK,
          { a1 with buffer := some (copied.set (n - 1) nulChar),
                    buffer_capacity := new_size,
                    buffer_length := min new_size old_length }, false)
      | (ret, a1) => (ret, a1, false)

/-- rcutils_char_array_expand_as_needed. -/
def rcutils_char_array_expand_as_needed (junk : Char) (a : rcutils_char_array_t)
    (new_size : Nat) (alloc_ok : Bool) : RcutilsRet × rcutils_char_array_t :=
  if new_size ≤ a.buffer_capacity then
    (RCUTILS_RET_OK, a)
  else
    -- grow by at least a factor of 1.5
    let minimum_size := a.buffer_capacity + a.buffer_capacity / 2
    let new_size := if new_size < minimum_size then minimum_size else new_size
    let r := rcutils_char_array_resize junk a new_size alloc_ok
    (r.1, r.2.1)

/-- vsnprintf writing into a buffer of the given capacity: writes the
formatted output plus NUL, truncated to the capacity (with a NUL in the
last position when truncating); writes nothing when the capacity is 0. -/
def vsnprintfWrite (junk : Char) (buf : List Char) (capacity : Nat) (out : List Char) :
    List Char :=
  if capacity = 0 then buf
  else if out.length + 1 ≤ capacity then writeAt junk buf 0 (out ++ [nulChar])
  else writeAt junk buf 0 (out.take (capacity - 1) ++ [nulChar])

/-- rcutils_char_array_vsprintf.  The pair `(format, args)` is abstracted
by the NUL-free string `formatted` that vsnprintf would produce; its
length is the value both vsnprintf calls return. -/
def rcutils_char_array_vsprintf (junk : Char) (a : rcutils_char_array_t)
    (formatted : List Char) (alloc_ok : Bool) : RcutilsRet × rcutils_char_array_t :=
  let size := formatted.length
  let a := { a with buffer := some (vsnprintfWrite junk (a.buffer.getD [])
                                      a.buffer_capacity formatted) }
  let new_size := size + 1
  if new_size > a.buffer_capacity then
    match rcutils_char_array_expand_as_needed junk a new_size alloc_ok with
    | (RCUTILS_RET_OK, a1) =>
      let a2 := { a1 with buffer := some (vsnprintfWrite junk (a1.buffer.getD [])
                                            a1.buffer_capacity formatted) }
      (RCUTILS_RET_OK, { a2 with buffer_length := new_size })
    | (ret, a1) => (ret, a1)
  else
    (RCUTILS_RET_OK, { a with buffer_length := new_size })

/-- rcutils_char_array_memcpy. -/
def rcutils_char_array_memcpy (junk : Char) (a : rcutils_char_array_t)
    (src : List Char) (n : Nat) (alloc_ok : Bool) : RcutilsRet × rcutils_char_array_t :=
  match rcutils_char_array_expand_as_needed junk a n alloc_ok with
  | (RCUTILS_RET_OK, a1) =>
    (RCUTILS_RET_OK,
      { a1 with buffer := some (writeAt junk (a1.buffer.getD []) 0 (memRead junk src n)),
                buffer_length := n })
  | (ret, a1) => (ret, a1)

/-- rcutils_char_array_strcpy: memcpy of the string plus its terminator. -/
def rcutils_char_array_strcpy (junk : Char) (a : rcutils_char_array_t) (src : List Char)
    (alloc_ok : Bool) : RcutilsRet × rcutils_char_array_t :=
  rcutils_char_array_memcpy junk a (cstr src) (strlen src + 1) alloc_ok

/-- rcutils_char_array_strncat.  `src` is the in-memory byte string being
appended (`n` bytes of it are used). -/
def rcutils_char_array_strncat (junk : Char) (a : rcutils_char_array_t) (src : List Char)
    (n : Nat) (alloc_ok : Bool) : RcutilsRet × rcutils_char_array_t :=
  -- buffer_length counts the trailing NUL when a string is present
  let current_strlen := if a.buffer_length = 0 then 0 else a.buffer_length - 1
  let new_length := current_strlen + n + 1
  match rcutils_char_array_expand_as_needed junk a new_length alloc_ok with
  | (RCUTILS_RET_OK, a1) =>
    let buf1 := writeAt junk (a1.buffer.getD []) current_strlen (memRead junk src n)
    (RCUTILS_RET_OK,
      { a1 with buffer := some (buf1.set (new_length - 1) nulChar),
                buffer_length := new_length })
  | (ret, a1) => (ret, a1)

/-- rcutils_char_array_strcat. -/
def rcutils_char_array_strcat (junk : Char) (a : rcutils_char_array_t) (src : List Char)
    (alloc_ok : Bool) : RcutilsRet × rcutils_char_array_t :=
  rcutils_char_array_strncat junk a (cstr src) (strlen src) alloc_ok

/-! ### Supporting lemmas for the char array -/

/-- The modelled string content of a char array: the first
`buffer_length` bytes of its buffer. -/
def content (a : rcutils_char_array_t) : List Char :=
  (a.buffer.getD []).take a.buffer_length

/-- A structurally sound char array: the modelled buffer list has exactly
`buffer_capacity` bytes (as the C allocation does). -/
def lenOk (a : rcutils_char_array_t) : Prop :=
  (a.buffer.getD []).length = a.buffer_capacity

theorem memRead_length (junk : Char) (l : List Char) (n : Nat) :
    (memRead junk l n).length = n := by
  simp only [memRead, List.length_append, List.length_take, List.length_replicate]
  omega

theorem memRead_of_le (junk : Char) (l : List Char) (n : Nat) (h : n ≤ l.length) :
    memRead junk l n = l.take n := by
  simp [memRead, Nat.sub_eq_zero_of_le h]

theorem writeAt_length (junk : Char) (buf : List Char) (off : Nat) (bytes : List Char) :
    (writeAt junk buf off bytes).length = max (off + bytes.length) buf.length := by
  simp only [writeAt, List.length_append, memRead_length, List.length_drop]
  omega

theorem strlen_of_nul_not_mem (s : List Char) (h : nulChar ∉ s) : strlen s = s.length := by
  unfold strlen
  induction s with
  | nil => rfl
  | cons c t ih =>
    have hc : ¬(c = nulChar) := fun hcn => h (by simp [hcn])
    have ht : nulChar ∉ t := fun htm => h (by simp [htm])
    simpa [List.takeWhile_cons, hc] using ih ht

theorem cstr_take_strlen (s : List Char) (h : nulChar ∉ s) :
    (cstr s).take (strlen s) = s := by
  rw [strlen_of_nul_not_mem s h, cstr, List.take_append_of_le_length (Nat.le_refl _),
    List.take_length]

/-- Writing `bytes` at offset `cur` and placing a NUL right after it
yields a buffer whose first `cur + bytes.length + 1` bytes are the old
prefix, the bytes, and the NUL. -/
theorem writeAt_set_take (junk : Char) (buf : List Char) (cur : Nat) (bytes : List Char)
    (hlen : cur + bytes.length + 1 ≤ buf.length) :
    ((writeAt junk buf cur bytes).set (cur + bytes.length) nulChar).take
        (cur + bytes.length + 1) =
      buf.take cur ++ bytes ++ [nulChar] := by
  have hcur : cur ≤ buf.length := by omega
  have hdrop : 0 < (buf.drop (cur + bytes.length)).length := by
    simp only [List.length_drop]; omega
  obtain ⟨c, rest, hcr⟩ : ∃ c rest, buf.drop (cur + bytes.length) = c :: rest := by
    cases hb : buf.drop (cur + bytes.length) with
    | nil => rw [hb] at hdrop; simp at hdrop
    | cons c rest => exact ⟨c, rest, rfl⟩
  have hpre : (buf.take cur ++ bytes).length = cur + bytes.length := by
    simp only [List.length_append, List.length_take]; omega
  rw [writeAt, memRead_of_le junk buf cur hcur, hcr]
  rw [List.append_assoc]
  have hset : ((buf.take cur ++ (bytes ++ c :: rest)).set (cur + bytes.length) nulChar) =
      buf.take cur ++ (bytes ++ nulChar :: rest) := by
    rw [List.set_eq_take_append_cons_drop, if_pos (by simp [List.length_take]; omega)]
    have h1 : (buf.take cur ++ (bytes ++ c :: rest)).take (cur + bytes.length) =
        buf.take cur ++ bytes := by
      rw [← List.append_assoc, show cur + bytes.length =
        (buf.take cur ++ bytes).length + 0 by omega, List.take_append, List.take_zero,
        List.append_nil]
    have h2 : (buf.take cur ++ (bytes ++ c :: rest)).drop (cur + bytes.length + 1) = rest := by
      rw [← List.append_assoc, show cur + bytes.length + 1 =
        (buf.take cur ++ bytes).length + 1 by omega, List.drop_append, List.drop_one,
        List.tail_cons]
    rw [h1, h2, List.append_assoc]
  rw [hset, ← List.append_assoc,
    show cur + bytes.length + 1 = (buf.take cur ++ bytes).length + 1 by omega,
    List.take_append, List.take_succ_cons, List.take_zero, List.append_assoc]

/-- Facts about a successful `resize` of an owned array: the capacity
becomes the requested size, the length becomes the min of the old length
and the new size, ownership and structural soundness persist, and the
buffer keeps its first `min new_size old_length` bytes. -/
theorem resize_owned_ok (junk : Char) (a : rcutils_char_array_t) (n : Nat) (ok : Bool)
    (a1 : rcutils_char_array_t) (f : Bool)
    (hown : a.owns_buffer = true) (hlo : lenOk a) (hinv : a.buffer_length ≤ a.buffer_capacity)
    (h : rcutils_char_array_resize junk a n ok = (RCUTILS_RET_OK, a1, f)) :
    a1.owns_buffer = true ∧ lenOk a1 ∧ a1.buffer_capacity = n ∧
      a1.buffer_length = min n a.buffer_length ∧
      (a1.buffer.getD []).take (min n a.buffer_length) =
        (a.buffer.getD []).take (min n a.buffer_length) := by
  by_cases hz : n = 0
  · rw [rcutils_char_array_resize, if_pos hz] at h
    exact absurd (congrArg Prod.fst h) (by simp)
  by_cases hcap : n = a.buffer_capacity
  · rw [rcutils_char_array_resize, if_neg hz, if_pos hcap] at h
    simp only [Prod.mk.injEq] at h
    obtain ⟨-, h2, -⟩ := h
    subst h2
    refine ⟨hown, hlo, hcap.symm, ?_, rfl⟩
    omega
  · rw [rcutils_char_array_resize, if_neg hz, if_neg hcap, if_pos hown] at h
    cases ok with
    | false => simp [rcutils_reallocf] at h
    | true =>
      simp only [rcutils_reallocf, if_pos, Prod.mk.injEq] at h
      obtain ⟨-, h2, -⟩ := h
      subst h2
      refine ⟨hown, ?_, rfl, rfl, ?_⟩
      · unfold lenOk at hlo ⊢
        simp only [Option.getD_some, List.length_append, List.length_take,
          List.length_replicate]
        omega
      · simp only [Option.getD_some]
        rw [List.take_append_of_le_length, List.take_take, Nat.min_comm n, Nat.min_assoc,
          Nat.min_self]
        simp only [List.length_take]
        unfold lenOk at hlo
        omega

/-- Facts about a successful `expand_as_needed` on an owned array. -/
theorem expand_owned_ok (junk : Char) (a : rcutils_char_array_t) (n : Nat) (ok : Bool)
    (a1 : rcutils_char_array_t)
    (hown : a.owns_buffer = true) (hlo : lenOk a) (hinv : a.buffer_length ≤ a.buffer_capacity)
    (h : rcutils_char_array_expand_as_needed junk a n ok = (RCUTILS_RET_OK, a1)) :
    a1.owns_buffer = true ∧ lenOk a1 ∧ n ≤ a1.buffer_capacity ∧
      a1.buffer_length = a.buffer_length ∧
      (a1.buffer.getD []).take a.buffer_length = (a.buffer.getD []).take a.buffer_length := by
  by_cases hle : n ≤ a.buffer_capacity
  · rw [rcutils_char_array_expand_as_needed, if_pos hle] at h
    simp only [Prod.mk.injEq] at h
    obtain ⟨-, h2⟩ := h
    subst h2
    exact ⟨hown, hlo, hle, rfl, rfl⟩
  · rw [rcutils_char_array_expand_as_needed, if_neg hle] at h
    push_neg at hle
    rcases hr : rcutils_char_array_resize junk a
        (if n < a.buffer_capacity + a.buffer_capacity / 2 then
          a.buffer_capacity + a.buffer_capacity / 2 else n) ok with ⟨ret, a2, f⟩
    simp only [hr] at h
    simp only [Prod.mk.injEq] at h
    obtain ⟨h1, h2⟩ := h
    subst h1; subst h2
    obtain ⟨g1, g2, g3, g4, g5⟩ := resize_owned_ok junk a _ ok a2 f hown hlo hinv hr
    have hm : min (if n < a.buffer_capacity + a.buffer_capacity / 2 then
        a.buffer_capacity + a.buffer_capacity / 2 else n) a.buffer_length =
        a.buffer_length := by
      split <;> omega
    rw [hm] at g4 g5
    refine ⟨g1, g2, ?_, g4, g5⟩
    rw [g3]; split <;> omega

/-- Full behaviour of a successful `strncat` on an owned, structurally
sound array. -/
theorem strncat_ok (junk : Char) (a : rcutils_char_array_t) (src : List Char) (n : Nat)
    (ok : Bool) (a1 : rcutils_char_array_t)
    (hown : a.owns_buffer = true) (hlo : lenOk a) (hinv : a.buffer_length ≤ a.buffer_capacity)
    (h : rcutils_char_array_strncat junk a src n ok = (RCUTILS_RET_OK, a1)) :
    let cur := if a.buffer_length = 0 then 0 else a.buffer_length - 1
    a1.owns_buffer = true ∧ lenOk a1 ∧ a1.buffer_length = cur + n + 1 ∧
      a1.buffer_length ≤ a1.buffer_capacity ∧
      content a1 = (a.buffer.getD []).take cur ++ memRead junk src n ++ [nulChar] := by
  intro cur
  unfold rcutils_char_array_strncat at h
  rcases he : rcutils_char_array_expand_as_needed junk a (cur + n + 1) ok with ⟨ret, a2⟩
  simp only [show (if a.buffer_length = 0 then 0 else a.buffer_length - 1) = cur from rfl,
    he] at h
  cases ret with
  | RCUTILS_RET_OK =>
    obtain ⟨g1, g2, g3, g4, g5⟩ := expand_owned_ok junk a (cur + n + 1) ok a2 hown hlo hinv he
    simp only [Prod.mk.injEq] at h
    obtain ⟨-, h2⟩ := h
    subst h2
    have hcurlen : cur ≤ a.buffer_length := by unfold_let cur; split <;> omega
    have hbuf2 : cur + n + 1 ≤ (a2.buffer.getD []).length := by
      unfold lenOk at g2; omega
    have hmn : (memRead junk src n).length = n := memRead_length junk src n
    constructor
    · exact g1
    constructor
    · unfold lenOk at g2 ⊢
      simp only [Option.getD_some, List.length_set, writeAt_length, memRead_length]
      omega
    constructor
    · rfl
    constructor
    · exact g3
    · unfold content
      simp only [Option.getD_some]
      have hidx : cur + n + 1 - 1 = cur + n := by omega
      rw [hidx]
      have := writeAt_set_take junk (a2.buffer.getD []) cur (memRead junk src n)
        (by omega)
      rw [hmn] at this
      rw [this]
      congr 1
      congr 1
      calc (a2.buffer.getD []).take cur
          = ((a2.buffer.getD []).take a.buffer_length).take cur := by
            rw [List.take_take, Nat.min_eq_left hcurlen]
        _ = ((a.buffer.getD []).take a.buffer_length).take cur := by rw [g5]
        _ = (a.buffer.getD []).take cur := by rw [List.take_take, Nat.min_eq_left hcurlen]
  | RCUTILS_RET_ERROR => simp at h
  | RCUTILS_RET_BAD_ALLOC => simp at h
  | RCUTILS_RET_INVALID_ARGUMENT => simp at h
  | RCUTILS_RET_NOT_FOUND => simp at h
  | RCUTILS_RET_HASH_MAP_NO_MORE_ENTRIES => simp at h
  | RCUTILS_RET_LOGGING_SEVERITY_MAP_INVALID => simp at h

/-- Capacity and length after any successful `resize` (owned or not). -/
theorem resize_ok_facts (junk : Char) (a : rcutils_char_array_t) (n : Nat) (ok : Bool)
    (a1 : rcutils_char_array_t) (f : Bool)
    (hinv : a.buffer_length ≤ a.buffer_capacity)
    (h : rcutils_char_array_resize junk a n ok = (RCUTILS_RET_OK, a1, f)) :
    a1.buffer_capacity = n ∧ a1.buffer_length = min a.buffer_length n := by
  by_cases hz : n = 0
  · rw [rcutils_char_array_resize, if_pos hz] at h
    exact absurd (congrArg Prod.fst h) (by simp)
  by_cases hcap : n = a.buffer_capacity
  · rw [rcutils_char_array_resize, if_neg hz, if_pos hcap] at h
    simp only [Prod.mk.injEq] at h
    obtain ⟨-, h2, -⟩ := h
    subst h2
    exact ⟨hcap.symm, by omega⟩
  rw [rcutils_char_array_resize, if_neg hz, if_neg hcap] at h
  by_cases hown : a.owns_buffer = true
  · rw [if_pos hown] at h
    cases ok with
    | false => simp [rcutils_reallocf] at h
    | true =>
      simp only [rcutils_reallocf, if_pos, Prod.mk.injEq] at h
      obtain ⟨-, h2, -⟩ := h
      subst h2
      exact ⟨rfl, by simp [Nat.min_comm]⟩
  · rw [if_neg hown] at h
    cases ok with
    | false =>
      rw [rcutils_char_array_init, if_pos (Nat.pos_of_ne_zero hz)] at h
      simp at h
    | true =>
      rw [rcutils_char_array_init, if_pos (Nat.pos_of_ne_zero hz)] at h
      simp only [if_pos, Prod.mk.injEq] at h
      obtain ⟨-, h2, -⟩ := h
      subst h2
      exact ⟨rfl, by simp [Nat.min_comm]⟩

/-- Capacity and length after any successful `expand_as_needed`. -/
theorem expand_ok_facts (junk : Char) (a : rcutils_char_array_t) (n : Nat) (ok : Bool)
    (a1 : rcutils_char_array_t)
    (hinv : a.buffer_length ≤ a.buffer_capacity)
    (h : rcutils_char_array_expand_as_needed junk a n ok = (RCUTILS_RET_OK, a1)) :
    n ≤ a1.buffer_capacity ∧ a1.buffer_length = a.buffer_length ∧
      a1.buffer_length ≤ a1.buffer_capacity := by
  by_cases hle : n ≤ a.buffer_capacity
  · rw [rcutils_char_array_expand_as_needed, if_pos hle] at h
    simp only [Prod.mk.injEq] at h
    obtain ⟨-, h2⟩ := h
    subst h2
    exact ⟨hle, rfl, hinv⟩
  · rw [rcutils_char_array_expand_as_needed, if_neg hle] at h
    push_neg at hle
    rcases hr : rcutils_char_array_resize junk a
        (if n < a.buffer_capacity + a.buffer_capacity / 2 then
          a.buffer_capacity + a.buffer_capacity / 2 else n) ok with ⟨ret, a2, f⟩
    simp only [hr] at h
    simp only [Prod.mk.injEq] at h
    obtain ⟨h1, h2⟩ := h
    subst h1; subst h2
    obtain ⟨g1, g2⟩ := resize_ok_facts junk a _ ok a2 f hinv hr
    have hm : min a.buffer_length (if n < a.buffer_capacity + a.buffer_capacity / 2 then
        a.buffer_capacity + a.buffer_capacity / 2 else n) = a.buffer_length := by
      split <;> omega
    rw [hm] at g2
    refine ⟨?_, g2, ?_⟩
    · rw [g1]; split <;> omega
    · rw [g2, g1]; split <;> omega

/-! ### Claims C3, C8, C10 -/

/-- C3, counterexample: resizing an owned char array when the reallocation
fails does deallocate the existing buffer (rcutils_reallocf frees the
original pointer on failure), contradicting the claim that the buffer is
not freed.  Concrete input: an owned 3-byte array resized to 8 with the
reallocation failing. -/
theorem C3_counterexample :
    (rcutils_char_array_resize '?'
        { buffer := some ['a', 'b', 'c'], buffer_length := 3, buffer_capacity := 3,
          owns_buffer := true } 8 false).1 = RCUTILS_RET_BAD_ALLOC ∧
    (rcutils_char_array_resize '?'
        { buffer := some ['a', 'b', 'c'], buffer_length := 3, buffer_capacity := 3,
          owns_buffer := true } 8 false).2.2 = true := by
  constructor <;> rfl

/-- C3, amended: for every char array that owns its buffer and every
new_size > 0 differing from the current capacity, when the reallocation
fails, rcutils_char_array_resize returns bad-alloc, leaves the array
fields unchanged, and the previously allocated buffer has been
deallocated by rcutils_reallocf (so the stored buffer pointer dangles). -/
theorem C3_theorem (junk : Char) (a : rcutils_char_array_t) (new_size : Nat)
    (hown : a.owns_buffer = true) (hz : new_size ≠ 0) (hcap : new_size ≠ a.buffer_capacity) :
    rcutils_char_array_resize junk a new_size false =
      (RCUTILS_RET_BAD_ALLOC, a, true) := by
  rw [rcutils_char_array_resize, if_neg hz, if_neg hcap, if_pos hown]
  simp [rcutils_reallocf]

/-- C3 witness: concrete instance of the amended theorem. -/
theorem C3_witness :
    rcutils_char_array_resize '?'
        { buffer := some ['a', 'b', 'c'], buffer_length := 3, buffer_capacity := 3,
          owns_buffer := true } 8 false =
      (RCUTILS_RET_BAD_ALLOC,
        { buffer := some ['a', 'b', 'c'], buffer_length := 3, buffer_capacity := 3,
          owns_buffer := true }, true) :=
  C3_theorem '?'
    { buffer := some ['a', 'b', 'c'], buffer_length := 3, buffer_capacity := 3,
      owns_buffer := true } 8 rfl (by decide) (by decide)

/-- C8: on a freshly initialized char array, strcat of `a` followed by
strcat of `b` (both succeeding) leaves the buffer holding exactly
`a ++ b` followed by a single terminating NUL, with buffer_length
counting that terminator. -/
theorem C8_theorem (junk : Char) (cap : Nat) (a b : List Char)
    (ha : nulChar ∉ a) (hb : nulChar ∉ b) (ok0 ok1 ok2 : Bool)
    (ar0 ar1 ar2 : rcutils_char_array_t)
    (h0 : rcutils_char_array_init junk cap ok0 = (RCUTILS_RET_OK, ar0))
    (h1 : rcutils_char_array_strcat junk ar0 a ok1 = (RCUTILS_RET_OK, ar1))
    (h2 : rcutils_char_array_strcat junk ar1 b ok2 = (RCUTILS_RET_OK, ar2)) :
    content ar2 = a ++ b ++ [nulChar] ∧
      ar2.buffer_length = a.length + b.length + 1 := by
  -- facts about the freshly initialized array
  have hinit : ar0.owns_buffer = true ∧ lenOk ar0 ∧ ar0.buffer_length = 0 := by
    rw [rcutils_char_array_init] at h0
    split at h0
    · split at h0
      · simp only [Prod.mk.injEq] at h0
        obtain ⟨-, h02⟩ := h0
        subst h02
        exact ⟨rfl, by simp [lenOk], rfl⟩
      · exact absurd (congrArg Prod.fst h0) (by simp)
    · next hcap =>
      simp only [Prod.mk.injEq] at h0
      obtain ⟨-, h02⟩ := h0
      subst h02
      refine ⟨rfl, ?_, rfl⟩
      unfold lenOk
      simp only [Option.getD_none, List.length_nil]
      omega
  obtain ⟨hown0, hlo0, hlen0⟩ := hinit
  -- the bytes actually copied by strcat are exactly the source string
  have hread : ∀ s : List Char, nulChar ∉ s → memRead junk (cstr s) (strlen s) = s := by
    intro s hs
    rw [memRead_of_le junk (cstr s) (strlen s)
        (by rw [strlen_of_nul_not_mem s hs]; simp [cstr]),
      cstr_take_strlen s hs]
  -- first strcat
  obtain ⟨g1, g2, g3, g4, g5⟩ := strncat_ok junk ar0 (cstr a) (strlen a) ok1 ar1 hown0 hlo0
    (by omega) h1
  rw [hlen0] at g3 g5
  simp only [if_pos] at g3 g5
  rw [hread a ha] at g5
  simp only [List.take_zero, List.nil_append] at g5
  rw [strlen_of_nul_not_mem a ha] at g3
  -- second strcat
  obtain ⟨k1, k2, k3, k4, k5⟩ := strncat_ok junk ar1 (cstr b) (strlen b) ok2 ar2 g1 g2 g4 h2
  have hlen1 : ar1.buffer_length = a.length + 1 := by omega
  have hcur1 : (if ar1.buffer_length = 0 then 0 else ar1.buffer_length - 1) = a.length := by
    rw [hlen1]; simp
  rw [hcur1] at k3 k5
  rw [hread b hb] at k5
  have htake : (ar1.buffer.getD []).take a.length = a := by
    have : (ar1.buffer.getD []).take a.length =
        ((ar1.buffer.getD []).take ar1.buffer_length).take a.length := by
      rw [List.take_take, Nat.min_eq_left (by omega)]
    rw [this]
    unfold content at g5
    rw [g5, List.take_append_of_le_length (Nat.le_refl _), List.take_length]
  rw [htake] at k5
  rw [strlen_of_nul_not_mem b hb] at k3
  exact ⟨k5, by omega⟩

/-- C8 witness: concatenating "hi" then "yo" onto a freshly initialized
array yields the buffer "hiyo" plus one terminating NUL. -/
theorem C8_witness :
    content (rcutils_char_array_strcat '?'
        (rcutils_char_array_strcat '?' (rcutils_char_array_init '?' 1 true).2
          ['h', 'i'] true).2 ['y', 'o'] true).2 =
      ['h', 'i', 'y', 'o', nulChar] ∧
    (rcutils_char_array_strcat '?'
        (rcutils_char_array_strcat '?' (rcutils_char_array_init '?' 1 true).2
          ['h', 'i'] true).2 ['y', 'o'] true).2.buffer_length = 5 :=
  C8_theorem '?' 1 ['h', 'i'] ['y', 'o'] (by decide) (by decide) true true true
    (rcutils_char_array_init '?' 1 true).2
    (rcutils_char_array_strcat '?' (rcutils_char_array_init '?' 1 true).2 ['h', 'i'] true).2
    (rcutils_char_array_strcat '?'
      (rcutils_char_array_strcat '?' (rcutils_char_array_init '?' 1 true).2
        ['h', 'i'] true).2 ['y', 'o'] true).2
    rfl rfl rfl

/-- C10: every char array operation that returns OK preserves
buffer_length ≤ buffer_capacity; in particular a successful resize sets
the capacity to new_size and the length to min(old_length, new_size). -/
theorem C10_theorem (junk : Char) (a : rcutils_char_array_t)
    (hinv : a.buffer_length ≤ a.buffer_capacity) :
    (∀ cap ok ret a1, rcutils_char_array_init junk cap ok = (ret, a1) →
      a1.buffer_length ≤ a1.buffer_capacity) ∧
    (∀ n ok a1 f, rcutils_char_array_resize junk a n ok = (RCUTILS_RET_OK, a1, f) →
      a1.buffer_capacity = n ∧ a1.buffer_length = min a.buffer_length n ∧
        a1.buffer_length ≤ a1.buffer_capacity) ∧
    (∀ n ok a1, rcutils_char_array_expand_as_needed junk a n ok = (RCUTILS_RET_OK, a1) →
      a1.buffer_length ≤ a1.buffer_capacity) ∧
    (∀ s ok a1, rcutils_char_array_vsprintf junk a s ok = (RCUTILS_RET_OK, a1) →
      a1.buffer_length ≤ a1.buffer_capacity) ∧
    (∀ s n ok a1, rcutils_char_array_memcpy junk a s n ok = (RCUTILS_RET_OK, a1) →
      a1.buffer_length ≤ a1.buffer_capacity) ∧
    (∀ s ok a1, rcutils_char_array_strcpy junk a s ok = (RCUTILS_RET_OK, a1) →
      a1.buffer_length ≤ a1.buffer_capacity) ∧
    (∀ s n ok a1, rcutils_char_array_strncat junk a s n ok = (RCUTILS_RET_OK, a1) →
      a1.buffer_length ≤ a1.buffer_capacity) ∧
    (∀ s ok a1, rcutils_char_array_strcat junk a s ok = (RCUTILS_RET_OK, a1) →
      a1.buffer_length ≤ a1.buffer_capacity) := by
  have hmemcpy : ∀ s n ok a1, rcutils_char_array_memcpy junk a s n ok = (RCUTILS_RET_OK, a1) →
      a1.buffer_length ≤ a1.buffer_capacity := by
    intro s n ok a1 h
    rw [rcutils_char_array_memcpy] at h
    rcases he : rcutils_char_array_expand_as_needed junk a n ok with ⟨ret, a2⟩
    rw [he] at h
    cases ret <;> simp only [Prod.mk.injEq] at h <;>
      [skip; exact absurd h.1 (by simp); exact absurd h.1 (by simp);
       exact absurd h.1 (by simp); exact absurd h.1 (by simp);
       exact absurd h.1 (by simp); exact absurd h.1 (by simp)]
    obtain ⟨g1, -, -⟩ := expand_ok_facts junk a n ok a2 hinv he
    obtain ⟨-, h2⟩ := h
    subst h2
    exact g1
  have hstrncat : ∀ s n ok a1,
      rcutils_char_array_strncat junk a s n ok = (RCUTILS_RET_OK, a1) →
      a1.buffer_length ≤ a1.buffer_capacity := by
    intro s n ok a1 h
    rw [rcutils_char_array_strncat] at h
    rcases he : rcutils_char_array_expand_as_needed junk a
        ((if a.buffer_length = 0 then 0 else a.buffer_length - 1) + n + 1) ok with ⟨ret, a2⟩
    rw [he] at h
    cases ret <;> simp only [Prod.mk.injEq] at h <;>
      [skip; exact absurd h.1 (by simp); exact absurd h.1 (by simp);
       exact absurd h.1 (by simp); exact absurd h.1 (by simp);
       exact absurd h.1 (by simp); exact absurd h.1 (by simp)]
    obtain ⟨g1, -, -⟩ := expand_ok_facts junk a _ ok a2 hinv he
    obtain ⟨-, h2⟩ := h
    subst h2
    exact g1
  refine ⟨?_, ?_, ?_, ?_, hmemcpy, ?_, hstrncat, ?_⟩
  · intro cap ok ret a1 h
    rw [rcutils_char_array_init] at h
    split at h
    · split at h
      · simp only [Prod.mk.injEq] at h
        obtain ⟨-, h2⟩ := h
        subst h2
        exact Nat.zero_le _
      · simp only [Prod.mk.injEq] at h
        obtain ⟨-, h2⟩ := h
        subst h2
        exact Nat.le_refl 0
    · simp only [Prod.mk.injEq] at h
      obtain ⟨-, h2⟩ := h
      subst h2
      exact Nat.zero_le _
  · intro n ok a1 f h
    obtain ⟨g1, g2⟩ := resize_ok_facts junk a n ok a1 f hinv h
    exact ⟨g1, g2, by omega⟩
  · intro n ok a1 h
    exact (expand_ok_facts junk a n ok a1 hinv h).2.2
  · intro s ok a1 h
    rw [rcutils_char_array_vsprintf] at h
    by_cases hgt : s.length + 1 > a.buffer_capacity
    · rw [if_pos hgt] at h
      rcases he : rcutils_char_array_expand_as_needed junk
          { a with buffer := some (vsnprintfWrite junk (a.buffer.getD [])
              a.buffer_capacity s) } (s.length + 1) ok with ⟨ret, a2⟩
      rw [he] at h
      cases ret <;> simp only [Prod.mk.injEq] at h <;>
        [skip; exact absurd h.1 (by simp); exact absurd h.1 (by simp);
         exact absurd h.1 (by simp); exact absurd h.1 (by simp);
         exact absurd h.1 (by simp); exact absurd h.1 (by simp)]
      obtain ⟨g1, -, -⟩ := expand_ok_facts junk
        { a with buffer := some (vsnprintfWrite junk (a.buffer.getD []) a.buffer_capacity s) }
        (s.length + 1) ok a2 hinv he
      obtain ⟨-, h2⟩ := h
      subst h2
      exact g1
    · rw [if_neg hgt] at h
      simp only [Prod.mk.injEq] at h
      obtain ⟨-, h2⟩ := h
      subst h2
      simpa using Nat.le_of_not_lt hgt
  · intro s ok a1 h
    exact hmemcpy (cstr s) (strlen s + 1) ok a1 h
  · intro s ok a1 h
    exact hstrncat (cstr s) (strlen s) ok a1 h

/-- C10 witness: concrete instance of the resize conjunct. -/
theorem C10_witness :
    (rcutils_char_array_resize '?'
        { buffer := some ['x', nulChar, '?', '?'], buffer_length := 2, buffer_capacity := 4,
          owns_buffer := true } 3 true).2.1.buffer_capacity = 3 ∧
    (rcutils_char_array_resize '?'
        { buffer := some ['x', nulChar, '?', '?'], buffer_length := 2, buffer_capacity := 4,
          owns_buffer := true } 3 true).2.1.buffer_length = min 2 3 ∧
    (rcutils_char_array_resize '?'
        { buffer := some ['x', nulChar, '?', '?'], buffer_length := 2, buffer_capacity := 4,
          owns_buffer := true } 3 true).2.1.buffer_length ≤
      (rcutils_char_array_resize '?'
        { buffer := some ['x', nulChar, '?', '?'], buffer_length := 2, buffer_capacity := 4,
          owns_buffer := true } 3 true).2.1.buffer_capacity :=
  ( C10_theorem '?'
      { buffer := some ['x', nulChar, '?', '?'], buffer_length := 2, buffer_capacity := 4,
        owns_buffer := true } (by decide)).2.1 3 true _ _ rfl

/-! ## Error handling (src/error_handling.c, src/error_handling_helpers.h) -/

def RCUTILS_ERROR_MESSAGE_MAX_LENGTH : Nat := 1024
def RCUTILS_ERROR_STATE_MESSAGE_MAX_LENGTH : Nat := 768
def RCUTILS_ERROR_STATE_LINE_NUMBER_STR_MAX_LENGTH : Nat := 20
def RCUTILS_ERROR_FORMATTING_CHARACTERS : Nat := 6

/-- 1024 - 768 - 20 - 6 - 1 = 229. -/
def RCUTILS_ERROR_STATE_FILE_MAX_LENGTH : Nat :=
  RCUTILS_ERROR_MESSAGE_MAX_LENGTH - RCUTILS_ERROR_STATE_MESSAGE_MAX_LENGTH -
    RCUTILS_ERROR_STATE_LINE_NUMBER_STR_MAX_LENGTH - RCUTILS_ERROR_FORMATTING_CHARACTERS - 1

/-- rcutils_error_state_t: message and file are the fixed-size buffers,
modelled by the NUL-free char list they hold; line_number is a uint64. -/
structure rcutils_error_state_t where
  message : List Char
  file : List Char
  line_number : Nat
  deriving DecidableEq, Repr

/-- The thread-local error storage of error_handling.c. -/
structure ErrorThreadState where
  error_state : rcutils_error_state_t
  error_string : List Char
  error_string_is_formatted : Bool
  error_is_set : Bool
  deriving DecidableEq, Repr

/-- A freshly initialized thread-local error state. -/
def initialErrorThreadState : ErrorThreadState :=
  { error_state := { message := [], file := [], line_number := 0 },
    error_string := [], error_string_is_formatted := false, error_is_set := false }

/-- __rcutils_copy_string: copy min(strlen src, dst_size - 1) bytes into a
dst_size byte buffer and NUL-terminate; the result is the string written
(without its terminator), which is also the returned byte count. -/
def __rcutils_copy_string (dst_size : Nat) (src : List Char) : List Char :=
  if strlen src ≥ dst_size then src.take (dst_size - 1) else src.take (strlen src)

/-- __rcutils_convert_uint64_t_into_c_str, digit-accumulation loop:
digits of the number, least significant first. -/
def u64_digits_rev (number : Nat) : List Char :=
  if h : number = 0 then []
  else
    have : number / 10 < number := Nat.div_lt_self (Nat.pos_of_ne_zero h) (by omega)
    Nat.digitChar (number % 10) :: u64_digits_rev (number / 10)

/-- __rcutils_convert_uint64_t_into_c_str: write the digits then reverse
the string in place; 0 is special-cased. -/
def __rcutils_convert_uint64_t_into_c_str (number : Nat) : List Char :=
  if number = 0 then ['0'] else (u64_digits_rev number).reverse

/-- __rcutils_format_error_string: sequentially copy message, ", at ",
file, ":" and the decimal line number into the 1024-byte output buffer,
tracking the bytes left at each step. -/
def __rcutils_format_error_string (error_state : rcutils_error_state_t) : List Char :=
  let bytes_left0 := RCUTILS_ERROR_MESSAGE_MAX_LENGTH
  let w1 := __rcutils_copy_string bytes_left0 error_state.message
  let bytes_left1 := bytes_left0 - w1.length
  let w2 := __rcutils_copy_string bytes_left1 (", at ").data
  let bytes_left2 := bytes_left1 - w2.length
  let w3 := __rcutils_copy_string bytes_left2 error_state.file
  let bytes_left3 := bytes_left2 - w3.length
  let w4 := __rcutils_copy_string bytes_left3 (":").data
  let bytes_left4 := bytes_left3 - w4.length
  let w5 := __rcutils_copy_string bytes_left4
      (__rcutils_convert_uint64_t_into_c_str error_state.line_number)
  w1 ++ w2 ++ w3 ++ w4 ++ w5

/-- rcutils_set_error_state: copy message and file (truncating to their
fixed-size buffers), store the line, invalidate the cached formatted
string, and mark the error set. -/
def rcutils_set_error_state (st : ErrorThreadState) (error_string : List Char)
    (file : List Char) (line_number : Nat) : ErrorThreadState :=
  let error_state : rcutils_error_state_t :=
    { message := __rcutils_copy_string RCUTILS_ERROR_STATE_MESSAGE_MAX_LENGTH error_string,
      file := __rcutils_copy_string RCUTILS_ERROR_STATE_FILE_MAX_LENGTH file,
      line_number := line_number }
  { error_state := error_state, error_string := [],
    error_string_is_formatted := false, error_is_set := true }

/-- rcutils_get_error_string: the not-set sentinel, or the lazily
formatted and cached error string. -/
def rcutils_get_error_string (st : ErrorThreadState) : List Char × ErrorThreadState :=
  if st.error_is_set = false then (("error not set").data, st)
  else if st.error_string_is_formatted = false then
    let s := __rcutils_format_error_string st.error_state
    (s, { st with error_string := s, error_string_is_formatted := true })
  else (st.error_string, st)

/-- Modelled from the spec: the line number printed as unsigned decimal
digits, no padding, no sign. -/
def decimalSpec (n : Nat) : List Char :=
  if h : n < 10 then [Nat.digitChar n]
  else
    have : n / 10 < n := Nat.div_lt_self (by omega) (by omega)
    decimalSpec (n / 10) ++ [Nat.digitChar (n % 10)]

theorem u64_digits_rev_reverse (n : Nat) (hn : n ≠ 0) :
    (u64_digits_rev n).reverse = decimalSpec n := by
  induction n using Nat.strong_induction_on with
  | _ n ih =>
    rw [u64_digits_rev]
    rw [dif_neg hn, List.reverse_cons]
    by_cases h10 : n < 10
    · have hd : n / 10 = 0 := Nat.div_eq_of_lt h10
      have hm : n % 10 = n := Nat.mod_eq_of_lt h10
      rw [hd, u64_digits_rev, dif_pos rfl, List.reverse_nil, List.nil_append, hm,
        decimalSpec, dif_pos h10]
    · have hd : n / 10 ≠ 0 := by omega
      rw [ih (n / 10) (Nat.div_lt_self (Nat.pos_of_ne_zero hn) (by omega)) hd]
      conv_rhs => rw [decimalSpec]
      rw [dif_neg h10]

theorem convert_eq_decimalSpec (n : Nat) :
    __rcutils_convert_uint64_t_into_c_str n = decimalSpec n := by
  by_cases hz : n = 0
  · subst hz
    rw [__rcutils_convert_uint64_t_into_c_str, if_pos rfl, decimalSpec,
      dif_pos (by omega)]
    decide
  · rw [__rcutils_convert_uint64_t_into_c_str, if_neg hz, u64_digits_rev_reverse n hz]

theorem decimalSpec_all_digits (n : Nat) : ∀ c ∈ decimalSpec n, c ∈ ("0123456789").data := by
  induction n using Nat.strong_induction_on with
  | _ n ih =>
    intro c hc
    by_cases h10 : n < 10
    · rw [decimalSpec, dif_pos h10] at hc
      simp only [List.mem_singleton] at hc
      subst hc
      interval_cases n <;> decide
    · rw [decimalSpec, dif_neg h10] at hc
      rcases List.mem_append.1 hc with h | h
      · exact ih (n / 10) (Nat.div_lt_self (by omega) (by omega)) c h
      · simp only [List.mem_singleton] at h
        subst h
        have hlt : n % 10 < 10 := Nat.mod_lt n (by omega)
        interval_cases hm : (n % 10) <;> decide

theorem nul_not_mem_decimalSpec (n : Nat) : nulChar ∉ decimalSpec n := by
  intro h
  have := decimalSpec_all_digits n nulChar h
  revert this
  decide

theorem decimalSpec_length_le (k : Nat) :
    ∀ n < 10 ^ (k + 1), (decimalSpec n).length ≤ k + 1 := by
  induction k with
  | zero =>
    intro n hn
    rw [decimalSpec, dif_pos (by omega)]
    simp
  | succ k ih =>
    intro n hn
    by_cases h10 : n < 10
    · rw [decimalSpec, dif_pos h10]
      simp
    · rw [decimalSpec, dif_neg h10]
      have hdiv : n / 10 < 10 ^ (k + 1) := by
        rw [Nat.div_lt_iff_lt_mul (by omega)]
        calc n < 10 ^ (k + 1 + 1) := hn
          _ = 10 ^ (k + 1) * 10 := by ring
      have := ih (n / 10) hdiv
      simp only [List.length_append, List.length_singleton]
      omega

/-- For NUL-free sources, copy_string is plain truncation to the buffer
size minus the terminator. -/
theorem copy_string_of_nul_not_mem (d : Nat) (src : List Char) (h : nulChar ∉ src) :
    __rcutils_copy_string d src = src.take (d - 1) := by
  rw [__rcutils_copy_string, strlen_of_nul_not_mem src h]
  split
  · rfl
  · next hlt =>
    push_neg at hlt
    rw [List.take_length, List.take_of_length_le (by omega)]

/-! ### Claim C4 -/

/-- C4: after set_error_state(message, file, line), get_error_string
returns exactly message (truncated to its 768-byte buffer) ++ ", at " ++
file (truncated to its 229-byte buffer) ++ ":" ++ the line number in
decimal digits (no padding, no sign), and the whole string stays within
the 1024-char bound, terminator included. -/
theorem C4_theorem (st : ErrorThreadState) (msg file : List Char) (line : Nat)
    (hm : nulChar ∉ msg) (hf : nulChar ∉ file) (hline : line < 2 ^ 64) :
    (rcutils_get_error_string (rcutils_set_error_state st msg file line)).1 =
      msg.take 767 ++ (", at ").data ++ file.take 228 ++ (":").data ++ decimalSpec line ∧
    (rcutils_get_error_string (rcutils_set_error_state st msg file line)).1.length ≤ 1023 := by
  have hmsg : __rcutils_copy_string RCUTILS_ERROR_STATE_MESSAGE_MAX_LENGTH msg =
      msg.take 767 := copy_string_of_nul_not_mem _ msg hm
  have hfile : __rcutils_copy_string RCUTILS_ERROR_STATE_FILE_MAX_LENGTH file =
      file.take 228 := copy_string_of_nul_not_mem _ file hf
  have hm767 : nulChar ∉ msg.take 767 := fun hmem => hm (List.mem_of_mem_take hmem)
  have hf228 : nulChar ∉ file.take 228 := fun hmem => hf (List.mem_of_mem_take hmem)
  have hmlen : (msg.take 767).length ≤ 767 := by simp
  have hflen : (file.take 228).length ≤ 228 := by simp
  have hdec := convert_eq_decimalSpec line
  have hdlen : (decimalSpec line).length ≤ 20 := by
    have h20 : line < 10 ^ (19 + 1) := lt_of_lt_of_le hline (by norm_num)
    exact decimalSpec_length_le 19 line h20
  have hdnul : nulChar ∉ decimalSpec line := nul_not_mem_decimalSpec line
  have hS5nul : nulChar ∉ (", at ").data := by decide
  have hS1nul : nulChar ∉ (":").data := by decide
  have hS5len : ((", at ").data).length = 5 := rfl
  have hS1len : ((":").data).length = 1 := rfl
  -- each sequential copy in the formatter goes through untruncated
  have copy_full : ∀ (d : Nat) (s : List Char), nulChar ∉ s → s.length + 1 ≤ d →
      __rcutils_copy_string d s = s := by
    intro d s hs hd
    rw [copy_string_of_nul_not_mem d s hs, List.take_of_length_le (by omega)]
  -- evaluate the formatter step by step
  have hout : __rcutils_format_error_string
      { message := msg.take 767, file := file.take 228, line_number := line } =
      msg.take 767 ++ (", at ").data ++ file.take 228 ++ (":").data ++ decimalSpec line := by
    rw [__rcutils_format_error_string]
    simp only [RCUTILS_ERROR_MESSAGE_MAX_LENGTH]
    rw [copy_full 1024 (msg.take 767) hm767 (by omega)]
    rw [copy_full _ (", at ").data hS5nul (by omega)]
    rw [copy_full _ (file.take 228) hf228 (by rw [hS5len]; omega)]
    rw [copy_full _ (":").data hS1nul (by rw [hS5len]; omega)]
    rw [hdec]
    rw [copy_full _ (decimalSpec line) hdnul (by rw [hS5len, hS1len]; omega)]
  have hget : (rcutils_get_error_string (rcutils_set_error_state st msg file line)).1 =
      __rcutils_format_error_string
        { message := __rcutils_copy_string RCUTILS_ERROR_STATE_MESSAGE_MAX_LENGTH msg,
          file := __rcutils_copy_string RCUTILS_ERROR_STATE_FILE_MAX_LENGTH file,
          line_number := line } := rfl
  constructor
  · rw [hget, hmsg, hfile]
    exact hout
  · rw [hget, hmsg, hfile, hout]
    simp only [List.length_append, List.length_take, List.length_cons, List.length_nil]
    omega

/-- C4 witness: a concrete set_error_state / get_error_string round
trip. -/
theorem C4_witness :
    (rcutils_get_error_string (rcutils_set_error_state initialErrorThreadState
        ("oops").data ("f.c").data 42)).1 =
      ("oops").data.take 767 ++ (", at ").data ++ ("f.c").data.take 228 ++ (":").data ++
        decimalSpec 42 ∧
    (rcutils_get_error_string (rcutils_set_error_state initialErrorThreadState
        ("oops").data ("f.c").data 42)).1.length ≤ 1023 :=
  C4_theorem initialErrorThreadState ("oops").data ("f.c").data 42
    (by decide) (by decide) (by norm_num)

/-! ## Fault injection (src/testing/fault_injection.c) -/

def RCUTILS_FAULT_INJECTION_NEVER_FAIL : Int := -1

def RCUTILS_FAULT_INJECTION_FAIL_NOW : Int := 0

/-- rcutils_fault_injection_is_test_complete.  `enabled` models the
compile-time RCUTILS_ENABLE_FAULT_INJECTION switch and `count` the atomic
counter; when enabled, the code returns the comparison
`count > RCUTILS_FAULT_INJECTION_NEVER_FAIL`. -/
def rcutils_fault_injection_is_test_complete (enabled : Bool) (count : Int) : Bool :=
  if enabled = false then true
  else decide (count > RCUTILS_FAULT_INJECTION_NEVER_FAIL)

/-- _rcutils_fault_injection_maybe_fail, single-threaded semantics of the
compare-exchange loop: returns the value read and the new counter. -/
def _rcutils_fault_injection_maybe_fail (count : Int) : Int × Int :=
  if count ≤ RCUTILS_FAULT_INJECTION_NEVER_FAIL then (count, count)
  else (count, count - 1)

/-- C5: evaluating the code at the failing inputs.  With fault injection
enabled the code returns `count > -1`: it yields false at counter -1
(where the claim requires true) and true at counter 5 (where the claim
requires false); only the compile-time-disabled case matches the claim. -/
theorem C5_theorem :
    rcutils_fault_injection_is_test_complete true (-1) = false ∧
    rcutils_fault_injection_is_test_complete true 5 = true ∧
    rcutils_fault_injection_is_test_complete false (-1) = true := by
  decide

/-! ## Hash map (src/hash_map.c)

Keys and values of the configured key_size / data_size are abstracted by
types `α` and `β`; the shallow memcpy of key_size (resp. data_size) bytes
becomes copying the value.  `hasher` is key_hashing_func and `keyEq` is
the boolean `key_cmp_func(a, b) == 0`.  Each allocation site carries an
explicit success flag. -/

structure rcutils_hash_map_entry_t (α β : Type) where
  hashed_key : Nat
  key : α
  value : β
  deriving DecidableEq, Repr

/-- The hash map: buckets (a `none` bucket is one whose array-list impl
pointer is still NULL) plus the stored size.  The capacity is the length
of the bucket array. -/
structure rcutils_hash_map_t (α β : Type) where
  map : List (Option (List (rcutils_hash_map_entry_t α β)))
  size : Nat
  deriving DecidableEq, Repr

/-- Success flags for the allocations a set may perform: the new entry,
its key copy, its value copy, the lazy bucket-list initialization, the
bucket append (array-list grow), and all allocations of a grow/rehash
taken together. -/
structure SetAllocPlan where
  entry_ok : Bool
  key_ok : Bool
  value_ok : Bool
  bucket_init_ok : Bool
  bucket_add_ok : Bool
  grow_ok : Bool
  deriving DecidableEq, Repr

/-- The all-allocations-succeed plan. -/
def allOk : SetAllocPlan :=
  { entry_ok := true, key_ok := true, value_ok := true, bucket_init_ok := true,
    bucket_add_ok := true, grow_ok := true }

namespace HashMap

variable {α β : Type}

/-- Flattened contents of a bucket array in bucket-major order (the
iteration order of hash_map.c). -/
def flatB (bs : List (Option (List (rcutils_hash_map_entry_t α β)))) :
    List (rcutils_hash_map_entry_t α β) :=
  bs.flatMap (fun ob => ob.getD [])

/-- All entries of the map in bucket-major order. -/
def entriesList (m : rcutils_hash_map_t α β) : List (rcutils_hash_map_entry_t α β) :=
  flatB m.map

/-- Scan of a bucket for the first entry matching the predicate,
returning its index and the entry (the loop of hash_map_find). -/
def bucket_find (p : rcutils_hash_map_entry_t α β → Bool) :
    List (rcutils_hash_map_entry_t α β) → Option (Nat × rcutils_hash_map_entry_t α β)
  | [] => none
  | e :: rest =>
    if p e then some (0, e)
    else (bucket_find p rest).map (fun ie => (ie.1 + 1, ie.2))

variable (hasher : α → Nat) (keyEq : α → α → Bool)

/-- The match predicate of hash_map_find: stored hash equals the key's
hash, and key_cmp returns 0. -/
def matches_ (key_hash : Nat) (key : α) (e : rcutils_hash_map_entry_t α β) : Bool :=
  e.hashed_key == key_hash && keyEq e.key key

/-- hash_map_find: locate the bucket by `hash AND (capacity - 1)` and
scan it; returns (map_index, bucket_index, entry). -/
def hash_map_find (m : rcutils_hash_map_t α β) (key : α) :
    Option (Nat × Nat × rcutils_hash_map_entry_t α β) :=
  let key_hash := hasher key
  let map_index := key_hash &&& (m.map.length - 1)
  match m.map.getD map_index none with
  | none => none
  | some bucket =>
    match bucket_find (matches_ keyEq key_hash key) bucket with
    | none => none
    | some (bucket_index, e) => some (map_index, bucket_index, e)

/-- hash_map_insert_entry: initialize the bucket list on first use, then
append the entry.  A failed append after a successful initialization
leaves the freshly initialized empty bucket in place. -/
def hash_map_insert_entry (map : List (Option (List (rcutils_hash_map_entry_t α β))))
    (bucket_index : Nat) (entry : rcutils_hash_map_entry_t α β)
    (init_ok add_ok : Bool) :
    RcutilsRet × List (Option (List (rcutils_hash_map_entry_t α β))) :=
  match map.getD bucket_index none with
  | none =>
    if init_ok then
      if add_ok then (RCUTILS_RET_OK, map.set bucket_index (some [entry]))
      else (RCUTILS_RET_BAD_ALLOC, map.set bucket_index (some []))
    else (RCUTILS_RET_BAD_ALLOC, map)
  | some bucket =>
    if add_ok then (RCUTILS_RET_OK, map.set bucket_index (some (bucket ++ [entry])))
    else (RCUTILS_RET_BAD_ALLOC, map)

/-- One step of the rehash double loop: insert an entry into the new
bucket array at `hashed_key % new_capacity`. -/
def rehashInsert (new_map : List (Option (List (rcutils_hash_map_entry_t α β))))
    (new_capacity : Nat) (e : rcutils_hash_map_entry_t α β) :
    List (Option (List (rcutils_hash_map_entry_t α β))) :=
  let new_index := e.hashed_key % new_capacity
  match new_map.getD new_index none with
  | none => new_map.set new_index (some [e])
  | some bucket => new_map.set new_index (some (bucket ++ [e]))

/-- The rehash of hash_map_check_and_grow_map: every entry of the old
map, in bucket-major order, is inserted (moved, not reallocated) into a
fresh zero-initialized bucket array of the new capacity. -/
def rehash (old : List (Option (List (rcutils_hash_map_entry_t α β))))
    (new_capacity : Nat) : List (Option (List (rcutils_hash_map_entry_t α β))) :=
  (old.flatMap (fun ob => ob.getD [])).foldl (fun nm e => rehashInsert nm new_capacity e)
    (List.replicate new_capacity none)

/-- hash_map_check_and_grow_map: when `size >= (size_t)(0.75 * capacity)`
(the cast truncates; for the power-of-two capacities the map maintains
this is exactly 3*capacity/4), double the capacity and rehash.  A grow
failure leaves the map unchanged.  All allocations of the grow are
summarized by `grow_ok`. -/
def hash_map_check_and_grow_map (m : rcutils_hash_map_t α β) (grow_ok : Bool) :
    RcutilsRet × rcutils_hash_map_t α β :=
  if m.size ≥ 3 * m.map.length / 4 then
    if grow_ok then
      (RCUTILS_RET_OK, { map := rehash m.map (2 * m.map.length), size := m.size })
    else (RCUTILS_RET_BAD_ALLOC, m)
  else (RCUTILS_RET_OK, m)

/-- Overwrite the value of the entry at (map_index, bucket_index). -/
def updateEntryValue (map : List (Option (List (rcutils_hash_map_entry_t α β))))
    (map_index bucket_index : Nat) (value : β) :
    List (Option (List (rcutils_hash_map_entry_t α β))) :=
  match map.getD map_index none with
  | none => map
  | some bucket =>
    match bucket.get? bucket_index with
    | none => map
    | some e => map.set map_index (some (bucket.set bucket_index { e with value := value }))

/-- rcutils_hash_map_set. -/
def rcutils_hash_map_set (m : rcutils_hash_map_t α β) (key : α) (value : β)
    (plan : SetAllocPlan) : RcutilsRet × rcutils_hash_map_t α β :=
  match hash_map_find hasher keyEq m key with
  | some (map_index, bucket_index, _) =>
    -- the key already exists: update the existing value in place
    let m1 : rcutils_hash_map_t α β :=
      { m with map := updateEntryValue m.map map_index bucket_index value }
    -- grow failure is non-fatal: the set still returns OK
    (RCUTILS_RET_OK, (hash_map_check_and_grow_map m1 plan.grow_ok).2)
  | none =>
    if plan.entry_ok = false then (RCUTILS_RET_BAD_ALLOC, m)
    else if plan.key_ok = false || plan.value_ok = false then (RCUTILS_RET_BAD_ALLOC, m)
    else
      let key_hash := hasher key
      let entry : rcutils_hash_map_entry_t α β :=
        { hashed_key := key_hash, key := key, value := value }
      let bucket_index := key_hash &&& (m.map.length - 1)
      match hash_map_insert_entry m.map bucket_index entry
          plan.bucket_init_ok plan.bucket_add_ok with
      | (RCUTILS_RET_OK, map1) =>
        let m1 : rcutils_hash_map_t α β := { map := map1, size := m.size + 1 }
        (RCUTILS_RET_OK, (hash_map_check_and_grow_map m1 plan.grow_ok).2)
      | (ret, map1) => (ret, { m with map := map1 })

/-- rcutils_hash_map_get. -/
def rcutils_hash_map_get (m : rcutils_hash_map_t α β) (key : α) :
    RcutilsRet × Option β :=
  if m.size = 0 then (RCUTILS_RET_NOT_FOUND, none)
  else
    match hash_map_find hasher keyEq m key with
    | some (_, _, e) => (RCUTILS_RET_OK, some e.value)
    | none => (RCUTILS_RET_NOT_FOUND, none)

/-- rcutils_hash_map_unset: remove the entry from its bucket
(array_list_remove compacts the bucket) and decrement the size; a
missing key is a no-op success. -/
def rcutils_hash_map_unset (m : rcutils_hash_map_t α β) (key : α) :
    RcutilsRet × rcutils_hash_map_t α β :=
  if m.size = 0 then (RCUTILS_RET_OK, m)
  else
    match hash_map_find hasher keyEq m key with
    | none => (RCUTILS_RET_OK, m)
    | some (map_index, bucket_index, _) =>
      match m.map.getD map_index none with
      | none => (RCUTILS_RET_OK, m)
      | some bucket =>
        (RCUTILS_RET_OK,
          { map := m.map.set map_index (some (bucket.eraseIdx bucket_index)),
            size := m.size - 1 })

/-- rcutils_hash_map_key_exists.  On an empty map the C code returns
RCUTILS_RET_OK, whose integer value 0 converts to the boolean false. -/
def rcutils_hash_map_key_exists (m : rcutils_hash_map_t α β) (key : α) : Bool :=
  if m.size = 0 then false
  else (hash_map_find hasher keyEq m key).isSome

/-- The scan loop of get_next_key_and_data: starting at the given bucket
suffix and index, find the next stored entry (the bucket index resets to
0 after each bucket). -/
def scanFrom : List (Option (List (rcutils_hash_map_entry_t α β))) → Nat →
    Option (rcutils_hash_map_entry_t α β)
  | [], _ => none
  | ob :: rest, bucket_index =>
    match ob with
    | some bucket =>
      match bucket.get? bucket_index with
      | some e => some e
      | none => scanFrom rest 0
    | none => scanFrom rest 0

/-- rcutils_hash_map_get_next_key_and_data. -/
def rcutils_hash_map_get_next_key_and_data (m : rcutils_hash_map_t α β)
    (previous_key : Option α) : RcutilsRet × Option (α × β) :=
  if m.size = 0 then
    match previous_key with
    | some _ => (RCUTILS_RET_NOT_FOUND, none)
    | none => (RCUTILS_RET_HASH_MAP_NO_MORE_ENTRIES, none)
  else
    match previous_key with
    | none =>
      match scanFrom m.map 0 with
      | some e => (RCUTILS_RET_OK, some (e.key, e.value))
      | none => (RCUTILS_RET_HASH_MAP_NO_MORE_ENTRIES, none)
    | some p =>
      match hash_map_find hasher keyEq m p with
      | none => (RCUTILS_RET_NOT_FOUND, none)
      | some (map_index, bucket_index, _) =>
        match scanFrom (m.map.drop map_index) (bucket_index + 1) with
        | some e => (RCUTILS_RET_OK, some (e.key, e.value))
        | none => (RCUTILS_RET_HASH_MAP_NO_MORE_ENTRIES, none)

/-- Pairwise distinctness of stored keys with respect to key_cmp. -/
def keysDistinct : List (rcutils_hash_map_entry_t α β) → Bool
  | [] => true
  | e :: rest => rest.all (fun e2 => !(keyEq e.key e2.key)) && keysDistinct rest

/-- Well-formedness of a hash map state: non-zero power-of-two capacity,
every entry stores the hash of its key and sits in the bucket selected
by that hash, stored keys are pairwise distinct, and the size counter
matches the number of entries. -/
def hashMapWF (m : rcutils_hash_map_t α β) : Prop :=
  (m.map.length ≠ 0) ∧
  (∃ k, m.map.length = 2 ^ k) ∧
  (∀ i, ∀ b ∈ (m.map.getD i none).getD [],
    b.hashed_key = hasher b.key ∧ b.hashed_key % m.map.length = i) ∧
  (keysDistinct keyEq (entriesList m) = true) ∧
  (m.size = (entriesList m).length)

/-! ### Flattened-order characterization lemmas -/

theorem land_two_pow_sub_one (n k : Nat) : n &&& (2 ^ k - 1) = n % 2 ^ k := by
  apply Nat.eq_of_testBit_eq
  intro i
  rw [Nat.testBit_and, Nat.testBit_two_pow_sub_one, Nat.testBit_mod_two_pow, Bool.and_comm]

theorem flatB_nil : flatB ([] : List (Option (List (rcutils_hash_map_entry_t α β)))) = [] :=
  rfl

theorem flatB_cons (ob : Option (List (rcutils_hash_map_entry_t α β))) (rest) :
    flatB (ob :: rest) = ob.getD [] ++ flatB rest := by
  simp [flatB]

theorem flatB_append (l1 l2 : List (Option (List (rcutils_hash_map_entry_t α β)))) :
    flatB (l1 ++ l2) = flatB l1 ++ flatB l2 := by
  simp [flatB]

theorem drop_eq_getD_cons (bs : List (Option (List (rcutils_hash_map_entry_t α β))))
    (i : Nat) (h : i < bs.length) :
    bs.drop i = (bs.getD i none) :: bs.drop (i + 1) := by
  rw [List.drop_eq_getElem_cons h, List.getD_eq_getElem bs none h]

theorem flatB_decompose (bs : List (Option (List (rcutils_hash_map_entry_t α β))))
    (i : Nat) (h : i < bs.length) :
    flatB bs = flatB (bs.take i) ++ (bs.getD i none).getD [] ++ flatB (bs.drop (i + 1)) := by
  conv_lhs => rw [← List.take_append_drop i bs]
  rw [flatB_append, drop_eq_getD_cons bs i h, flatB_cons, List.append_assoc]

theorem flatB_set (bs : List (Option (List (rcutils_hash_map_entry_t α β))))
    (i : Nat) (ob : Option (List (rcutils_hash_map_entry_t α β))) (h : i < bs.length) :
    flatB (bs.set i ob) =
      flatB (bs.take i) ++ ob.getD [] ++ flatB (bs.drop (i + 1)) := by
  rw [List.set_eq_take_append_cons_drop, if_pos h, flatB_append, flatB_cons,
    List.append_assoc]

theorem mem_flatB (bs : List (Option (List (rcutils_hash_map_entry_t α β)))) (x)
    (h : x ∈ flatB bs) : ∃ j, j < bs.length ∧ x ∈ (bs.getD j none).getD [] := by
  rw [flatB, List.mem_flatMap] at h
  obtain ⟨ob, hob, hx⟩ := h
  obtain ⟨j, hj, hget⟩ := List.getElem_of_mem hob
  exact ⟨j, hj, by rwa [List.getD_eq_getElem bs none hj, hget]⟩

theorem mem_flatB_take (bs : List (Option (List (rcutils_hash_map_entry_t α β)))) (i x)
    (h : x ∈ flatB (bs.take i)) :
    ∃ j, j < i ∧ j < bs.length ∧ x ∈ (bs.getD j none).getD [] := by
  obtain ⟨j, hj, hx⟩ := mem_flatB (bs.take i) x h
  rw [List.length_take] at hj
  refine ⟨j, by omega, by omega, ?_⟩
  rw [List.getD, List.get?_eq_getElem?, List.getElem?_take_of_lt (by omega)] at hx
  rw [List.getD, List.get?_eq_getElem?]
  exact hx

theorem mem_flatB_drop (bs : List (Option (List (rcutils_hash_map_entry_t α β)))) (i x)
    (h : x ∈ flatB (bs.drop i)) :
    ∃ j, i ≤ j ∧ j < bs.length ∧ x ∈ (bs.getD j none).getD [] := by
  obtain ⟨j, hj, hx⟩ := mem_flatB (bs.drop i) x h
  rw [List.length_drop] at hj
  refine ⟨i + j, by omega, by omega, ?_⟩
  rw [List.getD, List.get?_eq_getElem?, List.getElem?_drop] at hx
  rw [List.getD, List.get?_eq_getElem?]
  exact hx

theorem scanFrom_zero (bs : List (Option (List (rcutils_hash_map_entry_t α β)))) :
    scanFrom bs 0 = (flatB bs).head? := by
  induction bs with
  | nil => rfl
  | cons ob rest ih =>
    cases ob with
    | none => rw [scanFrom, flatB_cons]; simpa using ih
    | some bucket =>
      rw [scanFrom, flatB_cons]
      cases bucket with
      | nil => simpa using ih
      | cons e t => simp

theorem scanFrom_cons (ob : Option (List (rcutils_hash_map_entry_t α β))) (rest) (j : Nat) :
    scanFrom (ob :: rest) j = ((ob.getD []).drop j ++ flatB rest).head? := by
  cases ob with
  | none => rw [scanFrom]; simpa using scanFrom_zero rest
  | some bucket =>
    rw [scanFrom]
    rcases hg : bucket.get? j with - | e
    · have hdrop : bucket.drop j = [] := by
        rw [List.get?_eq_getElem?] at hg
        rw [List.drop_eq_nil_iff]
        exact Nat.le_of_not_lt (fun hlt => by simp [List.getElem?_eq_getElem hlt] at hg)
      simp only [Option.getD_some, hdrop, List.nil_append]
      exact scanFrom_zero rest
    · simp only [Option.getD_some, List.head?_append]
      rw [List.head?_drop, ← List.get?_eq_getElem?, hg]
      rfl

theorem bucket_find_none_iff (p : rcutils_hash_map_entry_t α β → Bool) (b) :
    bucket_find p b = none ↔ ∀ e ∈ b, p e = false := by
  induction b with
  | nil => simp [bucket_find]
  | cons e t ih =>
    rw [bucket_find]
    by_cases hp : p e
    · simp [hp]
    · simp only [Bool.not_eq_true] at hp
      simp [hp, ih, Option.map_eq_none]

theorem bucket_find_some_decompose (p : rcutils_hash_map_entry_t α β → Bool) (b i e)
    (h : bucket_find p b = some (i, e)) :
    ∃ b1 b2, b = b1 ++ e :: b2 ∧ b1.length = i ∧ (∀ x ∈ b1, p x = false) ∧ p e = true := by
  induction b generalizing i with
  | nil => simp [bucket_find] at h
  | cons a t ih =>
    rw [bucket_find] at h
    by_cases hp : p a
    · rw [if_pos hp] at h
      simp only [Option.some.injEq, Prod.mk.injEq] at h
      obtain ⟨h1, h2⟩ := h
      subst h2
      exact ⟨[], t, by simp, by simp [← h1], by simp, hp⟩
    · rw [if_neg hp] at h
      rcases hf : bucket_find p t with _ | ⟨i', e'⟩
      · simp [hf] at h
      · rw [hf, show (some (i', e')).map (fun ie => (ie.1 + 1, ie.2)) =
            some (i' + 1, e') from rfl] at h
        simp only [Option.some.injEq, Prod.mk.injEq] at h
        obtain ⟨h1, h2⟩ := h
        subst h2
        obtain ⟨b1, b2, ht, hlen, hb1, hpe⟩ := ih i' hf
        refine ⟨a :: b1, b2, by rw [ht]; rfl, by simp [hlen, ← h1], ?_, hpe⟩
        intro x hx
        rcases List.mem_cons.1 hx with hx | hx
        · subst hx; simpa using hp
        · exact hb1 x hx

theorem find?_append_of_none (p : rcutils_hash_map_entry_t α β → Bool)
    (l1 l2 : List (rcutils_hash_map_entry_t α β))
    (h : ∀ x ∈ l1, p x = false) : (l1 ++ l2).find? p = l2.find? p := by
  induction l1 with
  | nil => simp
  | cons a t ih =>
    rw [List.cons_append, List.find?_cons_of_neg _ (by simp [h a (List.mem_cons_self a t)])]
    exact ih (fun x hx => h x (List.mem_cons_of_mem a hx))

theorem find?_filter_of_imp (p q : rcutils_hash_map_entry_t α β → Bool)
    (l : List (rcutils_hash_map_entry_t α β))
    (h : ∀ e, p e = true → q e = true) : (l.filter q).find? p = l.find? p := by
  induction l with
  | nil => rfl
  | cons a t ih =>
    by_cases hq : q a
    · rw [List.filter_cons_of_pos hq, List.find?_cons, List.find?_cons]
      cases hp : p a <;> simp [ih]
    · have hp : p a = false := by
        cases hpa : p a
        · rfl
        · exact absurd (h a hpa) (by simp [hq])
      rw [List.filter_cons_of_neg (by simp [hq]), List.find?_cons, hp, ih]

theorem keysDistinct_iff_pairwise (l : List (rcutils_hash_map_entry_t α β)) :
    keysDistinct keyEq l = true ↔
      l.Pairwise (fun e1 e2 => keyEq e1.key e2.key = false) := by
  induction l with
  | nil => simp [keysDistinct]
  | cons e t ih =>
    rw [keysDistinct, Bool.and_eq_true, List.pairwise_cons, ih, List.all_eq_true]
    constructor
    · rintro ⟨h1, h2⟩
      exact ⟨fun x hx => by simpa using h1 x hx, h2⟩
    · rintro ⟨h1, h2⟩
      exact ⟨fun x hx => by simpa using h1 x hx, h2⟩

/-! ### hash_map_find characterization under well-formedness -/

theorem cap_index_eq (m : rcutils_hash_map_t α β) (hwf : hashMapWF hasher keyEq m)
    (h : Nat) : h &&& (m.map.length - 1) = h % m.map.length := by
  obtain ⟨-, ⟨k, hk⟩, -, -, -⟩ := hwf
  rw [hk, land_two_pow_sub_one]

theorem no_match_in_bucket_ne (m : rcutils_hash_map_t α β)
    (hwf : hashMapWF hasher keyEq m) (key : α) (j : Nat)
    (hj : j ≠ hasher key % m.map.length) :
    ∀ x ∈ (m.map.getD j none).getD [], matches_ keyEq (hasher key) key x = false := by
  intro x hx
  obtain ⟨-, -, hbuck, -, -⟩ := hwf
  obtain ⟨hhash, hpos⟩ := hbuck j x hx
  have hne : x.hashed_key ≠ hasher key := fun he => hj (by rw [← hpos, he])
  simp [matches_, hne]

theorem find_none_char (m : rcutils_hash_map_t α β) (key : α)
    (hwf : hashMapWF hasher keyEq m)
    (hfind : hash_map_find hasher keyEq m key = none) :
    ∀ x ∈ entriesList m, matches_ keyEq (hasher key) key x = false := by
  intro x hx
  obtain ⟨j, hj, hxj⟩ := mem_flatB m.map x hx
  by_cases hjm : j = hasher key % m.map.length
  · subst hjm
    simp only [hash_map_find, cap_index_eq hasher keyEq m hwf] at hfind
    rcases hb : m.map.getD (hasher key % m.map.length) none with _ | bucket
    · rw [hb] at hxj; simp at hxj
    · simp only [hb] at hfind
      rw [hb] at hxj
      rcases hbf : bucket_find (matches_ keyEq (hasher key) key) bucket with _ | ie
      · exact (bucket_find_none_iff _ bucket).1 hbf x (by simpa using hxj)
      · rcases ie with ⟨bi, e⟩
        simp only [hbf] at hfind
        simp at hfind
  · exact no_match_in_bucket_ne hasher keyEq m hwf key j hjm x hxj

theorem find_some_char (m : rcutils_hash_map_t α β) (key : α) (mi bi : Nat)
    (e : rcutils_hash_map_entry_t α β) (hwf : hashMapWF hasher keyEq m)
    (hfind : hash_map_find hasher keyEq m key = some (mi, bi, e)) :
    mi = hasher key % m.map.length ∧ mi < m.map.length ∧
    ∃ b1 b2, (m.map.getD mi none).getD [] = b1 ++ e :: b2 ∧ b1.length = bi ∧
      matches_ keyEq (hasher key) key e = true ∧
      (∀ x ∈ flatB (m.map.take mi) ++ b1, matches_ keyEq (hasher key) key x = false) ∧
      entriesList m =
        (flatB (m.map.take mi) ++ b1) ++ e :: (b2 ++ flatB (m.map.drop (mi + 1))) := by
  have hcap : m.map.length ≠ 0 := hwf.1
  simp only [hash_map_find, cap_index_eq hasher keyEq m hwf] at hfind
  rcases hb : m.map.getD (hasher key % m.map.length) none with _ | bucket
  · simp only [hb] at hfind
    simp at hfind
  · simp only [hb] at hfind
    rcases hbf : bucket_find (matches_ keyEq (hasher key) key) bucket with _ | ⟨bi', e'⟩
    · simp only [hbf] at hfind
      simp at hfind
    · simp only [hbf] at hfind
      simp only [Option.some.injEq, Prod.mk.injEq] at hfind
      obtain ⟨hmi, hbi, he⟩ := hfind
      obtain ⟨b1, b2, hbeq, hlen, hb1, hpe⟩ :=
        bucket_find_some_decompose _ bucket bi' e' hbf
      subst hmi; subst hbi; subst he
      have hmilt : hasher key % m.map.length < m.map.length :=
        Nat.mod_lt _ (Nat.pos_of_ne_zero hcap)
      refine ⟨rfl, hmilt, b1, b2, by rw [hb]; exact hbeq, hlen, hpe, ?_, ?_⟩
      · intro x hx
        rcases List.mem_append.1 hx with hx | hx
        · obtain ⟨j, hji, hjl, hxj⟩ := mem_flatB_take m.map _ x hx
          exact no_match_in_bucket_ne hasher keyEq m hwf key j (by omega) x hxj
        · exact hb1 x hx
      · rw [entriesList, flatB_decompose m.map (hasher key % m.map.length) hmilt, hb]
        simp only [Option.getD_some]
        rw [hbeq]
        simp [List.append_assoc]

/-- The entry returned by find is the first match in flattened order. -/
theorem find_entry_eq (m : rcutils_hash_map_t α β) (key : α)
    (hwf : hashMapWF hasher keyEq m) :
    (hash_map_find hasher keyEq m key).map (fun t => t.2.2) =
      (entriesList m).find? (matches_ keyEq (hasher key) key) := by
  rcases hf : hash_map_find hasher keyEq m key with _ | ⟨mi, bi, e⟩
  · exact (List.find?_eq_none.2 (fun x hx => by
      simp [find_none_char hasher keyEq m key hwf hf x hx])).symm
  · obtain ⟨-, -, b1, b2, -, -, hpe, hpre, hsplit⟩ :=
      find_some_char hasher keyEq m key mi bi e hwf hf
    rw [hsplit, find?_append_of_none _ _ _ hpre, List.find?_cons_of_pos _ hpe]
    rfl

/-- rcutils_hash_map_get in terms of the flattened entry list. -/
theorem get_char (m : rcutils_hash_map_t α β) (key : α)
    (hwf : hashMapWF hasher keyEq m) :
    rcutils_hash_map_get hasher keyEq m key =
      match (entriesList m).find? (matches_ keyEq (hasher key) key) with
      | some e => (RCUTILS_RET_OK, some e.value)
      | none => (RCUTILS_RET_NOT_FOUND, none) := by
  have hfe := find_entry_eq hasher keyEq m key hwf
  rw [rcutils_hash_map_get]
  by_cases hsz : m.size = 0
  · rw [if_pos hsz]
    have hempty : entriesList m = [] := by
      have := hwf.2.2.2.2
      rw [hsz] at this
      exact List.eq_nil_of_length_eq_zero this.symm
    rw [hempty]
    rfl
  · rw [if_neg hsz]
    rcases hf : hash_map_find hasher keyEq m key with _ | ⟨mi, bi, e⟩
    · rw [hf] at hfe
      rw [← hfe]
      rfl
    · rw [hf] at hfe
      rw [← hfe]
      rfl

/-- The entry found by the bucket scan is the first match of find?. -/
theorem bucket_find_entry (p : rcutils_hash_map_entry_t α β → Bool) (b) :
    (bucket_find p b).map (fun ie => ie.2) = b.find? p := by
  induction b with
  | nil => rfl
  | cons a t ih =>
    rw [bucket_find, List.find?_cons]
    cases hp : p a
    · rw [if_neg (by simp), Option.map_map]
      exact ih
    · rw [if_pos rfl]
      rfl

theorem find?_first (p : rcutils_hash_map_entry_t α β → Bool) (F1 F2 e)
    (h1 : ∀ x ∈ F1, p x = false) (hpe : p e = true) :
    (F1 ++ e :: F2).find? p = some e := by
  rw [find?_append_of_none _ _ _ h1, List.find?_cons_of_pos _ hpe]

/-! ### Rehash characterization -/

theorem rehashInsert_length (nm : List (Option (List (rcutils_hash_map_entry_t α β))))
    (nc : Nat) (e) : (rehashInsert nm nc e).length = nm.length := by
  rw [rehashInsert]
  rcases nm.getD (e.hashed_key % nc) none with _ | b <;> simp

theorem rehashInsert_getD (nm : List (Option (List (rcutils_hash_map_entry_t α β))))
    (nc : Nat) (e) (hlen : nm.length = nc) (hnc : nc ≠ 0) (j : Nat) :
    ((rehashInsert nm nc e).getD j none).getD [] =
      if j = e.hashed_key % nc then ((nm.getD j none).getD []) ++ [e]
      else (nm.getD j none).getD [] := by
  have hidx : e.hashed_key % nc < nm.length := by
    rw [hlen]; exact Nat.mod_lt _ (Nat.pos_of_ne_zero hnc)
  rw [rehashInsert]
  rcases hb : nm.getD (e.hashed_key % nc) none with _ | b
  · by_cases hj : j = e.hashed_key % nc
    · subst hj
      rw [List.getD, List.get?_eq_getElem?, List.getElem?_set_self (by omega), hb]
      simp
    · rw [List.getD, List.get?_eq_getElem?, List.getElem?_set_ne (fun h => hj h.symm),
        if_neg hj, List.getD, List.get?_eq_getElem?]
  · by_cases hj : j = e.hashed_key % nc
    · subst hj
      rw [List.getD, List.get?_eq_getElem?, List.getElem?_set_self (by omega), hb]
      simp
    · rw [List.getD, List.get?_eq_getElem?, List.getElem?_set_ne (fun h => hj h.symm),
        if_neg hj, List.getD, List.get?_eq_getElem?]

theorem rehash_foldl_getD (es : List (rcutils_hash_map_entry_t α β))
    (nm : List (Option (List (rcutils_hash_map_entry_t α β)))) (nc : Nat)
    (hlen : nm.length = nc) (hnc : nc ≠ 0) (j : Nat) :
    ((es.foldl (fun acc e => rehashInsert acc nc e) nm).getD j none).getD [] =
      (nm.getD j none).getD [] ++ es.filter (fun e => e.hashed_key % nc == j) := by
  induction es generalizing nm with
  | nil => simp
  | cons e t ih =>
    rw [List.foldl_cons, ih (rehashInsert nm nc e) (by rw [rehashInsert_length, hlen])]
    rw [rehashInsert_getD nm nc e hlen hnc j]
    by_cases hj : j = e.hashed_key % nc
    · rw [if_pos hj, List.filter_cons_of_pos (by simp [hj]), List.append_assoc]
      rfl
    · rw [if_neg hj, List.filter_cons_of_neg (by simp; exact fun h => hj h.symm)]

theorem rehash_foldl_length (es : List (rcutils_hash_map_entry_t α β))
    (nm : List (Option (List (rcutils_hash_map_entry_t α β)))) (nc : Nat) :
    (es.foldl (fun acc e => rehashInsert acc nc e) nm).length = nm.length := by
  induction es generalizing nm with
  | nil => rfl
  | cons e t ih => rw [List.foldl_cons, ih, rehashInsert_length]

theorem rehash_length (old : List (Option (List (rcutils_hash_map_entry_t α β))))
    (nc : Nat) : (rehash old nc).length = nc := by
  rw [rehash, rehash_foldl_length, List.length_replicate]

theorem rehash_getD (old : List (Option (List (rcutils_hash_map_entry_t α β))))
    (nc : Nat) (hnc : nc ≠ 0) (j : Nat) :
    ((rehash old nc).getD j none).getD [] =
      (flatB old).filter (fun e => e.hashed_key % nc == j) := by
  rw [rehash, rehash_foldl_getD _ _ nc (List.length_replicate nc none) hnc]
  have : ((List.replicate nc (none : Option (List (rcutils_hash_map_entry_t α β)))).getD
      j none) = none := by
    rw [List.getD, List.get?_eq_getElem?]
    rcases hlt : (List.replicate nc (none : Option
        (List (rcutils_hash_map_entry_t α β))))[j]? with _ | v
    · rfl
    · have := List.getElem?_mem hlt
      rw [List.eq_of_mem_replicate this] at hlt ⊢
      rfl
  rw [this]
  rfl

/-- Moving an element from the middle to the back is a permutation. -/
theorem perm_middle_append (X Y : List (rcutils_hash_map_entry_t α β)) (e) :
    (X ++ [e] ++ Y).Perm ((X ++ Y) ++ [e]) := by
  rw [List.append_assoc, List.append_assoc]
  exact List.Perm.append_left X List.perm_append_comm

theorem rehashInsert_perm (nm : List (Option (List (rcutils_hash_map_entry_t α β))))
    (nc : Nat) (e) (hlen : nm.length = nc) (hnc : nc ≠ 0) :
    (flatB (rehashInsert nm nc e)).Perm (flatB nm ++ [e]) := by
  have hidx : e.hashed_key % nc < nm.length := by
    rw [hlen]; exact Nat.mod_lt _ (Nat.pos_of_ne_zero hnc)
  rw [rehashInsert]
  rcases hb : nm.getD (e.hashed_key % nc) none with _ | b
  · simp only []
    rw [flatB_set _ _ _ hidx]
    conv_rhs => rw [flatB_decompose nm _ hidx, hb]
    simp only [Option.getD_some, Option.getD_none, List.append_nil]
    exact perm_middle_append _ _ e
  · simp only []
    rw [flatB_set _ _ _ hidx]
    conv_rhs => rw [flatB_decompose nm _ hidx, hb]
    simp only [Option.getD_some]
    have heq : flatB (nm.take (e.hashed_key % nc)) ++ (b ++ [e]) ++
        flatB (nm.drop (e.hashed_key % nc + 1)) =
        (flatB (nm.take (e.hashed_key % nc)) ++ b) ++ [e] ++
        flatB (nm.drop (e.hashed_key % nc + 1)) := by
      simp [List.append_assoc]
    have heq2 : (flatB (nm.take (e.hashed_key % nc)) ++ b) ++
        flatB (nm.drop (e.hashed_key % nc + 1)) =
        flatB (nm.take (e.hashed_key % nc)) ++ b ++
        flatB (nm.drop (e.hashed_key % nc + 1)) := by
      simp [List.append_assoc]
    rw [heq, ← heq2]
    exact perm_middle_append _ _ e

theorem rehash_foldl_perm (nc : Nat) (hnc : nc ≠ 0)
    (es : List (rcutils_hash_map_entry_t α β)) :
    ∀ nm : List (Option (List (rcutils_hash_map_entry_t α β))), nm.length = nc →
    (flatB (es.foldl (fun acc e => rehashInsert acc nc e) nm)).Perm (flatB nm ++ es) := by
  induction es with
  | nil => intro nm _; simp
  | cons e t ih =>
    intro nm hlen
    rw [List.foldl_cons]
    refine (ih (rehashInsert nm nc e) (by rw [rehashInsert_length, hlen])).trans ?_
    have h1 := List.Perm.append_right t (rehashInsert_perm nm nc e hlen hnc)
    refine h1.trans ?_
    have : (flatB nm ++ [e]) ++ t = flatB nm ++ e :: t := by simp
    rw [this]

theorem flatB_replicate_none (n : Nat) :
    flatB (List.replicate n (none : Option (List (rcutils_hash_map_entry_t α β)))) = [] := by
  induction n with
  | zero => rfl
  | succ n ih => rw [List.replicate_succ, flatB_cons]; simpa using ih

/-- The rehash permutes the entry list. -/
theorem rehash_perm (old : List (Option (List (rcutils_hash_map_entry_t α β))))
    (nc : Nat) (hnc : nc ≠ 0) :
    (flatB (rehash old nc)).Perm (flatB old) := by
  have := rehash_foldl_perm nc hnc (flatB old) (List.replicate nc none)
    (List.length_replicate nc none)
  rw [flatB_replicate_none, List.nil_append] at this
  exact this

/-! ### Update / insert characterization and well-formedness preservation -/

theorem getD_set_self (bs : List (Option (List (rcutils_hash_map_entry_t α β))))
    (i : Nat) (ob) (h : i < bs.length) : (bs.set i ob).getD i none = ob := by
  rw [List.getD, List.get?_eq_getElem?, List.getElem?_set_self h]
  rfl

theorem getD_set_ne (bs : List (Option (List (rcutils_hash_map_entry_t α β))))
    (i j : Nat) (ob) (h : i ≠ j) : (bs.set i ob).getD j none = bs.getD j none := by
  rw [List.getD, List.get?_eq_getElem?, List.getElem?_set_ne h, List.getD,
    List.get?_eq_getElem?]

theorem set_middle (b1 b2 : List (rcutils_hash_map_entry_t α β)) (e x) :
    (b1 ++ e :: b2).set b1.length x = b1 ++ x :: b2 := by
  rw [List.set_eq_take_append_cons_drop,
    if_pos (by simp only [List.length_append, List.length_cons]; omega)]
  congr 1
  · rw [List.take_append_of_le_length (le_refl _), List.take_length]
  · congr 1
    rw [show b1.length + 1 = b1.length + 1 from rfl, List.drop_append, List.drop_one,
      List.tail_cons]

theorem get?_middle (b1 b2 : List (rcutils_hash_map_entry_t α β)) (e) :
    (b1 ++ e :: b2).get? b1.length = some e := by
  rw [List.get?_eq_getElem?, List.getElem?_append_right (le_refl _), Nat.sub_self]
  simp

theorem updateEntryValue_eq (m : rcutils_hash_map_t α β) (mi : Nat) (v : β)
    (b1 b2 : List (rcutils_hash_map_entry_t α β)) (e)
    (hb : m.map.getD mi none = some (b1 ++ e :: b2)) :
    updateEntryValue m.map mi b1.length v =
      m.map.set mi (some (b1 ++ { e with value := v } :: b2)) := by
  rw [updateEntryValue]
  simp only [hb, get?_middle b1 b2 e, set_middle b1 b2 e]

theorem updateEntryValue_length (map : List (Option (List (rcutils_hash_map_entry_t α β))))
    (mi bi : Nat) (v : β) : (updateEntryValue map mi bi v).length = map.length := by
  rw [updateEntryValue]
  rcases hB : map.getD mi none with _ | bucket
  · simp [hB]
  · simp only [hB]
    rcases hE : bucket.get? bi with _ | e
    · simp [hE]
    · simp [hE]

theorem keysDistinct_eq_pairwise_keys (l : List (rcutils_hash_map_entry_t α β)) :
    keysDistinct keyEq l = true ↔
      (l.map (fun e => e.key)).Pairwise (fun k1 k2 => keyEq k1 k2 = false) := by
  rw [keysDistinct_iff_pairwise, List.pairwise_map]

/-- Well-formedness is preserved by overwriting the value of an existing
entry at its found position. -/
theorem wf_update (m : rcutils_hash_map_t α β) (mi : Nat) (v : β)
    (b1 b2 : List (rcutils_hash_map_entry_t α β)) (e)
    (hwf : hashMapWF hasher keyEq m)
    (hb : m.map.getD mi none = some (b1 ++ e :: b2)) (hmi : mi < m.map.length) :
    hashMapWF hasher keyEq { m with map := updateEntryValue m.map mi b1.length v } ∧
    entriesList { m with map := updateEntryValue m.map mi b1.length v } =
      flatB (m.map.take mi) ++ (b1 ++ { e with value := v } :: b2) ++
        flatB (m.map.drop (mi + 1)) := by
  obtain ⟨hcap, hpow, hbuck, hdist, hsize⟩ := hwf
  have hupd := updateEntryValue_eq m mi v b1 b2 e hb
  have hent : entriesList { m with map := updateEntryValue m.map mi b1.length v } =
      flatB (m.map.take mi) ++ (b1 ++ { e with value := v } :: b2) ++
        flatB (m.map.drop (mi + 1)) := by
    rw [entriesList]
    simp only [hupd]
    rw [flatB_set _ _ _ hmi]
    rfl
  have hentm : entriesList m =
      flatB (m.map.take mi) ++ (b1 ++ e :: b2) ++ flatB (m.map.drop (mi + 1)) := by
    rw [entriesList, flatB_decompose m.map mi hmi, hb]
    rfl
  refine ⟨⟨?_, ?_, ?_, ?_, ?_⟩, hent⟩
  · simp only [updateEntryValue_length]
    exact hcap
  · simp only [updateEntryValue_length]
    exact hpow
  · intro i x hx
    simp only [updateEntryValue_length]
    simp only [hupd] at hx
    by_cases hi : i = mi
    · subst hi
      rw [getD_set_self _ _ _ hmi] at hx
      simp only [Option.getD_some] at hx
      have hxs : x ∈ b1 ++ e :: b2 ∨ x = { e with value := v } := by
        rcases List.mem_append.1 hx with hx | hx
        · exact Or.inl (List.mem_append.2 (Or.inl hx))
        · rcases List.mem_cons.1 hx with hx | hx
          · exact Or.inr hx
          · exact Or.inl (List.mem_append.2 (Or.inr (List.mem_cons_of_mem e hx)))
      rcases hxs with hx | hx
      · exact hbuck i x (by rw [hb]; simpa using hx)
      · subst hx
        have := hbuck i e (by rw [hb]; simp)
        exact this
    · rw [getD_set_ne _ _ _ _ (fun h => hi h.symm)] at hx
      exact hbuck i x hx
  · rw [keysDistinct_eq_pairwise_keys, hent]
    rw [keysDistinct_eq_pairwise_keys, hentm] at hdist
    have hmapeq : (flatB (m.map.take mi) ++ (b1 ++ { e with value := v } :: b2) ++
        flatB (m.map.drop (mi + 1))).map (fun x => x.key) =
        (flatB (m.map.take mi) ++ (b1 ++ e :: b2) ++
        flatB (m.map.drop (mi + 1))).map (fun x => x.key) := by
      simp
    rw [hmapeq]
    exact hdist
  · rw [hent]
    rw [hentm] at hsize
    simpa using hsize

theorem insert_entry_ok (map : List (Option (List (rcutils_hash_map_entry_t α β))))
    (idx : Nat) (entry) (initOk addOk : Bool) (map1)
    (h : hash_map_insert_entry map idx entry initOk addOk = (RCUTILS_RET_OK, map1)) :
    map1 = map.set idx (some (((map.getD idx none).getD []) ++ [entry])) := by
  rw [hash_map_insert_entry] at h
  rcases hb : map.getD idx none with _ | bucket
  · simp only [hb] at h
    cases initOk
    · rw [if_neg (by simp)] at h
      simp at h
    · rw [if_pos rfl] at h
      cases addOk
      · rw [if_neg (by simp)] at h
        simp at h
      · rw [if_pos rfl] at h
        simp only [Prod.mk.injEq] at h
        rw [← h.2]
        rfl
  · simp only [hb] at h
    cases addOk
    · rw [if_neg (by simp)] at h
      simp at h
    · rw [if_pos rfl] at h
      simp only [Prod.mk.injEq] at h
      rw [← h.2]
      rfl

theorem insert_entry_fail (map : List (Option (List (rcutils_hash_map_entry_t α β))))
    (idx : Nat) (entry) (initOk addOk : Bool) (ret map1)
    (h : hash_map_insert_entry map idx entry initOk addOk = (ret, map1))
    (hret : ret ≠ RCUTILS_RET_OK) :
    ret = RCUTILS_RET_BAD_ALLOC ∧
      (map1 = map ∨ (map.getD idx none = none ∧ map1 = map.set idx (some []))) := by
  rw [hash_map_insert_entry] at h
  rcases hb : map.getD idx none with _ | bucket
  · simp only [hb] at h
    cases initOk
    · rw [if_neg (by simp)] at h
      simp only [Prod.mk.injEq] at h
      rcases h with ⟨h1, h2⟩
      exact ⟨h1.symm, Or.inl h2.symm⟩
    · rw [if_pos rfl] at h
      cases addOk
      · rw [if_neg (by simp)] at h
        simp only [Prod.mk.injEq] at h
        rcases h with ⟨h1, h2⟩
        exact ⟨h1.symm, Or.inr ⟨by simp [hb], h2.symm⟩⟩
      · rw [if_pos rfl] at h
        simp only [Prod.mk.injEq] at h
        exact absurd h.1.symm hret
  · simp only [hb] at h
    cases addOk
    · rw [if_neg (by simp)] at h
      simp only [Prod.mk.injEq] at h
      rcases h with ⟨h1, h2⟩
      exact ⟨h1.symm, Or.inl h2.symm⟩
    · rw [if_pos rfl] at h
      simp only [Prod.mk.injEq] at h
      exact absurd h.1.symm hret

/-- After appending a fresh entry for an absent key, the map is again
well-formed and the new entry is the unique match for its key. -/
theorem wf_insert (m : rcutils_hash_map_t α β) (key : α) (v : β)
    (hwf : hashMapWF hasher keyEq m)
    (hrefl : keyEq key key = true)
    (hsymm : ∀ a b, keyEq a b = keyEq b a)
    (hcong : ∀ a b, keyEq a b = true → hasher a = hasher b)
    (hnone : hash_map_find hasher keyEq m key = none) :
    let entry : rcutils_hash_map_entry_t α β :=
      { hashed_key := hasher key, key := key, value := v }
    let idx := hasher key % m.map.length
    let map1 := m.map.set idx (some (((m.map.getD idx none).getD []) ++ [entry]))
    let m1 : rcutils_hash_map_t α β := { map := map1, size := m.size + 1 }
    hashMapWF hasher keyEq m1 ∧
    (entriesList m1).find? (matches_ keyEq (hasher key) key) = some entry := by
  intro entry idx map1 m1
  obtain ⟨hcap, hpow, hbuck, hdist, hsize⟩ := hwf
  have hwf' : hashMapWF hasher keyEq m := ⟨hcap, hpow, hbuck, hdist, hsize⟩
  have hidx : idx < m.map.length := Nat.mod_lt _ (Nat.pos_of_ne_zero hcap)
  have hnm := find_none_char hasher keyEq m key hwf' hnone
  have hents1 : entriesList m1 = flatB (m.map.take idx) ++
      (((m.map.getD idx none).getD []) ++ [entry]) ++ flatB (m.map.drop (idx + 1)) := by
    rw [entriesList]
    show flatB map1 = _
    rw [flatB_set _ _ _ hidx]
    rfl
  have hentm : entriesList m = flatB (m.map.take idx) ++
      ((m.map.getD idx none).getD []) ++ flatB (m.map.drop (idx + 1)) :=
    flatB_decompose m.map idx hidx
  have hAnomatch : ∀ x ∈ flatB (m.map.take idx) ++ ((m.map.getD idx none).getD []),
      matches_ keyEq (hasher key) key x = false := by
    intro x hx
    refine hnm x ?_
    rw [hentm]
    rcases List.mem_append.1 hx with hx | hx
    · exact List.mem_append.2 (Or.inl (List.mem_append.2 (Or.inl hx)))
    · exact List.mem_append.2 (Or.inl (List.mem_append.2 (Or.inr hx)))
  have hme : matches_ keyEq (hasher key) key entry = true := by
    simp [matches_, entry, hrefl]
  have hkeyne : ∀ x ∈ entriesList m, keyEq x.key key = false := by
    intro x hx
    cases hkx : keyEq x.key key
    · rfl
    · obtain ⟨j, hj, hxj⟩ := mem_flatB m.map x hx
      obtain ⟨hxh, -⟩ := hbuck j x hxj
      have : matches_ keyEq (hasher key) key x = true := by
        simp [matches_, hxh, hcong x.key key hkx, hkx]
      exact absurd (hnm x hx) (by simp [this])
  have hperm : (entriesList m1).Perm (entriesList m ++ [entry]) := by
    rw [hents1, hentm]
    have h1 : flatB (m.map.take idx) ++ (((m.map.getD idx none).getD []) ++ [entry]) ++
        flatB (m.map.drop (idx + 1)) =
        (flatB (m.map.take idx) ++ ((m.map.getD idx none).getD [])) ++ [entry] ++
        flatB (m.map.drop (idx + 1)) := by
      simp [List.append_assoc]
    have h2 : flatB (m.map.take idx) ++ ((m.map.getD idx none).getD []) ++
        flatB (m.map.drop (idx + 1)) =
        (flatB (m.map.take idx) ++ ((m.map.getD idx none).getD [])) ++
        flatB (m.map.drop (idx + 1)) := by
      simp [List.append_assoc]
    rw [h1, h2]
    exact perm_middle_append _ _ entry
  refine ⟨⟨?_, ?_, ?_, ?_, ?_⟩, ?_⟩
  · show map1.length ≠ 0
    simpa [map1] using hcap
  · show ∃ k, map1.length = 2 ^ k
    simpa [map1] using hpow
  · intro i x hx
    show x.hashed_key = hasher x.key ∧ x.hashed_key % map1.length = i
    have hlen1 : map1.length = m.map.length := by simp [map1]
    rw [hlen1]
    by_cases hi : i = idx
    · subst hi
      rw [show map1.getD idx none = some (((m.map.getD idx none).getD []) ++ [entry]) from
          getD_set_self _ _ _ hidx] at hx
      simp only [Option.getD_some] at hx
      rcases List.mem_append.1 hx with hx | hx
      · exact hbuck idx x hx
      · simp only [List.mem_singleton] at hx
        subst hx
        exact ⟨rfl, rfl⟩
    · rw [show map1.getD i none = m.map.getD i none from
          getD_set_ne _ _ _ _ (fun h => hi h.symm)] at hx
      exact hbuck i x hx
  · rw [keysDistinct_iff_pairwise]
    have hsym : Symmetric (fun e1 e2 : rcutils_hash_map_entry_t α β =>
        keyEq e1.key e2.key = false) := by
      intro a b hab
      rw [hsymm]
      exact hab
    rw [List.Perm.pairwise_iff (fun hab => hsym hab) hperm]
    rw [List.pairwise_append]
    refine ⟨(keysDistinct_iff_pairwise keyEq _).1 hdist, by simp, ?_⟩
    intro x hx y hy
    simp only [List.mem_singleton] at hy
    subst hy
    exact hkeyne x hx
  · show m.size + 1 = (entriesList m1).length
    rw [hperm.length_eq]
    simp [hsize]
  · rw [hents1]
    have h1 : flatB (m.map.take idx) ++ (((m.map.getD idx none).getD []) ++ [entry]) ++
        flatB (m.map.drop (idx + 1)) =
        (flatB (m.map.take idx) ++ ((m.map.getD idx none).getD [])) ++ entry ::
        flatB (m.map.drop (idx + 1)) := by
      simp [List.append_assoc]
    rw [h1]
    exact find?_first _ _ _ entry hAnomatch hme

/-- Getting any key from the doubled-and-rehashed map gives the same
result as getting it from the original. -/
theorem get_grow_char (m1 : rcutils_hash_map_t α β)
    (hwf1 : hashMapWF hasher keyEq m1) (key : α) :
    rcutils_hash_map_get hasher keyEq
        { map := rehash m1.map (2 * m1.map.length), size := m1.size } key =
      rcutils_hash_map_get hasher keyEq m1 key := by
  obtain ⟨hcap, ⟨k, hk⟩, hbuck, hdist, hsize⟩ := hwf1
  have hwf1' : hashMapWF hasher keyEq m1 := ⟨hcap, ⟨k, hk⟩, hbuck, hdist, hsize⟩
  have hnc : 2 * m1.map.length ≠ 0 := by
    intro h
    exact hcap (by omega)
  rw [get_char hasher keyEq m1 key hwf1']
  rw [rcutils_hash_map_get]
  by_cases hsz : m1.size = 0
  · rw [if_pos hsz]
    have hempty : entriesList m1 = [] := by
      rw [hsz] at hsize
      exact List.eq_nil_of_length_eq_zero hsize.symm
    rw [hempty]
    rfl
  · rw [if_neg hsz]
    -- locate the bucket in the grown map
    have hlen : (rehash m1.map (2 * m1.map.length)).length = 2 * m1.map.length :=
      rehash_length _ _
    have hland : hasher key &&& (2 * m1.map.length - 1) =
        hasher key % (2 * m1.map.length) := by
      rw [hk, show 2 * 2 ^ k = 2 ^ (k + 1) by ring, land_two_pow_sub_one]
    have hbucket := rehash_getD m1.map (2 * m1.map.length) hnc
      (hasher key % (2 * m1.map.length))
    have himp : ∀ e : rcutils_hash_map_entry_t α β,
        matches_ keyEq (hasher key) key e = true →
        (e.hashed_key % (2 * m1.map.length) == hasher key % (2 * m1.map.length)) = true := by
      intro e he
      simp only [matches_, Bool.and_eq_true, beq_iff_eq] at he
      simp [he.1]
    have hff := find?_filter_of_imp (matches_ keyEq (hasher key) key)
      (fun e => e.hashed_key % (2 * m1.map.length) == hasher key % (2 * m1.map.length))
      (flatB m1.map) himp
    simp only [hash_map_find, hlen, hland]
    rcases hB : (rehash m1.map (2 * m1.map.length)).getD
        (hasher key % (2 * m1.map.length)) none with _ | bucket
    · -- empty bucket in the grown map: no match in the original either
      rw [hB] at hbucket
      simp only [Option.getD_none] at hbucket
      have hnone : (entriesList m1).find? (matches_ keyEq (hasher key) key) = none := by
        show (flatB m1.map).find? (matches_ keyEq (hasher key) key) = none
        rw [← hff, ← hbucket]
        rfl
      rw [hnone]
    · rw [hB] at hbucket
      simp only [Option.getD_some] at hbucket
      have hbf := bucket_find_entry (matches_ keyEq (hasher key) key) bucket
      have hfb : bucket.find? (matches_ keyEq (hasher key) key) =
          (entriesList m1).find? (matches_ keyEq (hasher key) key) := by
        rw [hbucket]
        exact hff
      rcases hbfres : bucket_find (matches_ keyEq (hasher key) key) bucket with _ | ⟨bi, e⟩
      · have hnone : (entriesList m1).find? (matches_ keyEq (hasher key) key) = none := by
          rw [← hfb, ← hbf, hbfres]
          rfl
        rw [hnone]
        simp [hbfres]
      · have hsome : (entriesList m1).find? (matches_ keyEq (hasher key) key) = some e := by
          rw [← hfb, ← hbf, hbfres]
          rfl
        rw [hsome]
        simp [hbfres]

/-- check_and_grow never changes what get returns. -/
theorem grow_get (m1 : rcutils_hash_map_t α β) (grow_ok : Bool) (r : RcutilsRet)
    (m2 : rcutils_hash_map_t α β) (hwf1 : hashMapWF hasher keyEq m1)
    (h : hash_map_check_and_grow_map m1 grow_ok = (r, m2)) (key : α) :
    rcutils_hash_map_get hasher keyEq m2 key =
      rcutils_hash_map_get hasher keyEq m1 key := by
  rw [hash_map_check_and_grow_map] at h
  by_cases htrig : m1.size ≥ 3 * m1.map.length / 4
  · rw [if_pos htrig] at h
    cases grow_ok
    · rw [if_neg (by simp)] at h
      simp only [Prod.mk.injEq] at h
      rw [← h.2]
    · rw [if_pos rfl] at h
      simp only [Prod.mk.injEq] at h
      rw [← h.2]
      exact get_grow_char hasher keyEq m1 hwf1 key
  · rw [if_neg htrig] at h
    simp only [Prod.mk.injEq] at h
    rw [← h.2]

/-- hash_map_insert_entry never changes the number of buckets. -/
theorem insert_entry_length (map : List (Option (List (rcutils_hash_map_entry_t α β))))
    (idx : Nat) (entry : rcutils_hash_map_entry_t α β) (initOk addOk : Bool)
    (r : RcutilsRet) (map1) (h : hash_map_insert_entry map idx entry initOk addOk = (r, map1)) :
    map1.length = map.length := by
  rw [hash_map_insert_entry] at h
  rcases hb : map.getD idx none with _ | bucket
  · simp only [hb] at h
    cases initOk
    · rw [if_neg (by simp)] at h
      simp only [Prod.mk.injEq] at h
      rw [← h.2]
    · rw [if_pos rfl] at h
      cases addOk
      · rw [if_neg (by simp)] at h
        simp only [Prod.mk.injEq] at h
        rw [← h.2]
        simp
      · rw [if_pos rfl] at h
        simp only [Prod.mk.injEq] at h
        rw [← h.2]
        simp
  · simp only [hb] at h
    cases addOk
    · rw [if_neg (by simp)] at h
      simp only [Prod.mk.injEq] at h
      rw [← h.2]
    · rw [if_pos rfl] at h
      simp only [Prod.mk.injEq] at h
      rw [← h.2]
      simp

/-- When find misses, get returns not-found. -/
theorem find_none_get (m : rcutils_hash_map_t α β) (key : α)
    (hf : hash_map_find hasher keyEq m key = none) :
    rcutils_hash_map_get hasher keyEq m key = (RCUTILS_RET_NOT_FOUND, none) := by
  rw [rcutils_hash_map_get]
  by_cases hsz : m.size = 0
  · rw [if_pos hsz]
  · rw [if_neg hsz]
    simp only [hf]

/-- When find misses, key_exists is false. -/
theorem find_none_key_exists (m : rcutils_hash_map_t α β) (key : α)
    (hf : hash_map_find hasher keyEq m key = none) :
    rcutils_hash_map_key_exists hasher keyEq m key = false := by
  rw [rcutils_hash_map_key_exists]
  by_cases hsz : m.size = 0
  · rw [if_pos hsz]
  · rw [if_neg hsz, hf]
    rfl

/-- An absent key (as reported by key_exists) has no matching entry. -/
theorem key_exists_false_find_none (m : rcutils_hash_map_t α β) (key : α)
    (hwf : hashMapWF hasher keyEq m)
    (hne : rcutils_hash_map_key_exists hasher keyEq m key = false) :
    hash_map_find hasher keyEq m key = none := by
  by_cases hsz : m.size = 0
  · have h0 : (entriesList m).length = 0 := by rw [← hwf.2.2.2.2, hsz]
    have hempty : entriesList m = [] := List.eq_nil_of_length_eq_zero h0
    have hfe := find_entry_eq hasher keyEq m key hwf
    rw [hempty] at hfe
    rcases hres : hash_map_find hasher keyEq m key with _ | x
    · rfl
    · rw [hres] at hfe
      simp at hfe
  · rw [rcutils_hash_map_key_exists, if_neg hsz] at hne
    rcases hres : hash_map_find hasher keyEq m key with _ | x
    · rfl
    · rw [hres] at hne
      simp at hne

end HashMap

open HashMap

/-- The empty one-bucket map over Nat keys is well-formed. -/
theorem wf_empty_one :
    hashMapWF (fun n : Nat => n) (fun a b : Nat => a == b)
      ({ map := [none], size := 0 } : rcutils_hash_map_t Nat Nat) := by
  refine ⟨by decide, ⟨0, rfl⟩, ?_, rfl, rfl⟩
  intro i b hb
  rcases i with _ | i <;> simp [List.getD] at hb

/-- Nat boolean equality is symmetric. -/
theorem natBeq_symm (a b : Nat) : (a == b) = (b == a) := by
  by_cases h : a = b
  · rw [h]
  · have h1 : (a == b) = false := beq_eq_false_iff_ne.2 h
    have h2 : (b == a) = false := beq_eq_false_iff_ne.2 (fun e => h e.symm)
    rw [h1, h2]

/-- C6: for a well-formed hash map whose key comparator is reflexive,
symmetric and hash-compatible, a set of (key, value) that returns OK makes
an immediately following get of the same key return OK with exactly that
value, whether the set overwrote an existing entry or inserted a fresh one,
and whether or not the load-factor grow ran. -/
theorem C6_theorem {α β : Type} (hasher : α → Nat) (keyEq : α → α → Bool)
    (m m2 : rcutils_hash_map_t α β) (key : α) (v : β) (plan : SetAllocPlan)
    (hwf : hashMapWF hasher keyEq m)
    (hrefl : keyEq key key = true)
    (hsymm : ∀ a b, keyEq a b = keyEq b a)
    (hcong : ∀ a b, keyEq a b = true → hasher a = hasher b)
    (hset : rcutils_hash_map_set hasher keyEq m key v plan = (RCUTILS_RET_OK, m2)) :
    rcutils_hash_map_get hasher keyEq m2 key = (RCUTILS_RET_OK, some v) := by
  rw [rcutils_hash_map_set] at hset
  rcases hf : hash_map_find hasher keyEq m key with _ | ⟨mi, bi, e⟩
  · -- key absent: fresh insert
    simp only [hf] at hset
    rcases hres : hash_map_insert_entry m.map (hasher key &&& (m.map.length - 1))
        { hashed_key := hasher key, key := key, value := v }
        plan.bucket_init_ok plan.bucket_add_ok with ⟨r, map1⟩
    split at hset
    · simp at hset
    · split at hset
      · simp at hset
      · rw [hres] at hset
        by_cases hr : r = RCUTILS_RET_OK
        · subst hr
          simp only [Prod.mk.injEq, true_and] at hset
          have hmap1 := insert_entry_ok _ _ _ _ _ _ hres
          have hidx : hasher key &&& (m.map.length - 1) = hasher key % m.map.length :=
            cap_index_eq hasher keyEq m hwf _
          rw [hidx] at hmap1
          obtain ⟨hwf1, hfind1⟩ :=
            wf_insert hasher keyEq m key v hwf hrefl hsymm hcong hf
          rw [hmap1] at hset
          rcases hgr : hash_map_check_and_grow_map
              { map := m.map.set (hasher key % m.map.length)
                  (some (((m.map.getD (hasher key % m.map.length) none).getD []) ++
                    [{ hashed_key := hasher key, key := key, value := v }])),
                size := m.size + 1 } plan.grow_ok with ⟨r2, m2'⟩
          rw [hgr] at hset
          have hm2 : m2' = m2 := hset
          have hgg := grow_get hasher keyEq _ plan.grow_ok r2 m2' hwf1 hgr key
          have hget1 := get_char hasher keyEq _ key hwf1
          simp only [hfind1] at hget1
          rw [← hm2, hgg, hget1]
        · obtain ⟨hrb, -⟩ := insert_entry_fail _ _ _ _ _ _ _ hres hr
          subst hrb
          simp at hset
  · -- key present: update in place
    simp only [hf] at hset
    have hm2c : (hash_map_check_and_grow_map
        { m with map := updateEntryValue m.map mi bi v } plan.grow_ok).2 = m2 :=
      congrArg Prod.snd hset
    obtain ⟨hmi_eq, hmi_lt, b1, b2, hbeq, hb1len, hme, hpre, hsplit⟩ :=
      find_some_char hasher keyEq m key mi bi e hwf hf
    subst hb1len
    rcases hg : m.map.getD mi none with _ | bucket
    · rw [hg] at hbeq
      simp at hbeq
    · rw [hg] at hbeq
      simp only [Option.getD_some] at hbeq
      subst hbeq
      obtain ⟨hwfu, hentu⟩ := wf_update hasher keyEq m mi v b1 b2 e hwf hg hmi_lt
      have hfindu : (entriesList
          { m with map := updateEntryValue m.map mi b1.length v }).find?
          (matches_ keyEq (hasher key) key) = some { e with value := v } := by
        rw [hentu]
        have hassoc : flatB (m.map.take mi) ++ (b1 ++ { e with value := v } :: b2) ++
            flatB (m.map.drop (mi + 1)) =
            (flatB (m.map.take mi) ++ b1) ++ { e with value := v } ::
            (b2 ++ flatB (m.map.drop (mi + 1))) := by
          simp [List.append_assoc]
        rw [hassoc]
        exact find?_first _ _ _ _ hpre hme
      have hgetu := get_char hasher keyEq _ key hwfu
      simp only [hfindu] at hgetu
      rcases hgr : hash_map_check_and_grow_map
          { m with map := updateEntryValue m.map mi b1.length v } plan.grow_ok
        with ⟨r2, m2'⟩
      rw [hgr] at hm2c
      have hm2' : m2' = m2 := hm2c
      have hgg := grow_get hasher keyEq _ plan.grow_ok r2 m2' hwfu hgr key
      rw [← hm2', hgg, hgetu]

/-- Witness for C6: inserting key 5 with value 7 into the empty one-bucket
map and reading it back returns OK with value 7. -/
theorem C6_witness :
    rcutils_hash_map_get (fun n : Nat => n) (fun a b : Nat => a == b)
      (rcutils_hash_map_set (fun n : Nat => n) (fun a b : Nat => a == b)
        { map := [none], size := 0 } 5 7 allOk).2 5 = (RCUTILS_RET_OK, some 7) :=
  C6_theorem (fun n => n) (fun a b => a == b) { map := [none], size := 0 } _ 5 7 allOk
    wf_empty_one (by decide) natBeq_symm (fun a b h => by simpa using h) rfl

/-- C9: when a set of an absent key fails in any of its allocation steps
(entry, key copy, value copy, or bucket append), it returns BAD_ALLOC and
the map is observably unchanged: the size is the same, key_exists of the
key is still false, and get of the key still returns not-found. -/
theorem C9_theorem {α β : Type} (hasher : α → Nat) (keyEq : α → α → Bool)
    (m m2 : rcutils_hash_map_t α β) (key : α) (v : β) (plan : SetAllocPlan)
    (ret : RcutilsRet)
    (hwf : hashMapWF hasher keyEq m)
    (hnotin : rcutils_hash_map_key_exists hasher keyEq m key = false)
    (hset : rcutils_hash_map_set hasher keyEq m key v plan = (ret, m2))
    (hret : ret ≠ RCUTILS_RET_OK) :
    ret = RCUTILS_RET_BAD_ALLOC ∧ m2.size = m.size ∧
    rcutils_hash_map_key_exists hasher keyEq m2 key = false ∧
    rcutils_hash_map_get hasher keyEq m2 key = (RCUTILS_RET_NOT_FOUND, none) := by
  have hf : hash_map_find hasher keyEq m key = none :=
    key_exists_false_find_none hasher keyEq m key hwf hnotin
  rw [rcutils_hash_map_set] at hset
  simp only [hf] at hset
  rcases hres : hash_map_insert_entry m.map (hasher key &&& (m.map.length - 1))
      { hashed_key := hasher key, key := key, value := v }
      plan.bucket_init_ok plan.bucket_add_ok with ⟨r, map1⟩
  split at hset
  · injection hset with h1 h2
    subst h1
    subst h2
    exact ⟨rfl, rfl, hnotin, find_none_get hasher keyEq m key hf⟩
  · split at hset
    · injection hset with h1 h2
      subst h1
      subst h2
      exact ⟨rfl, rfl, hnotin, find_none_get hasher keyEq m key hf⟩
    · rw [hres] at hset
      by_cases hr : r = RCUTILS_RET_OK
      · subst hr
        simp only [Prod.mk.injEq] at hset
        exact absurd hset.1.symm hret
      · obtain ⟨hrb, hcases⟩ := insert_entry_fail _ _ _ _ _ _ _ hres hr
        subst hrb
        simp only [Prod.mk.injEq] at hset
        obtain ⟨h1, h2⟩ := hset
        subst h1
        rcases hcases with hsame | ⟨hnone, hsetb⟩
        · rw [hsame] at h2
          have hm2 : m = m2 := h2
          subst hm2
          exact ⟨rfl, rfl, hnotin, find_none_get hasher keyEq m key hf⟩
        · rw [hsetb] at h2
          have hidx : hasher key &&& (m.map.length - 1) = hasher key % m.map.length :=
            cap_index_eq hasher keyEq m hwf _
          have hlt : hasher key % m.map.length < m.map.length :=
            Nat.mod_lt _ (Nat.pos_of_ne_zero hwf.1)
          have hfind2 : hash_map_find hasher keyEq
              { m with map := (m.map.set (hasher key &&& (m.map.length - 1))
                  (some ([] : List (rcutils_hash_map_entry_t α β)))) } key = none := by
            simp only [hash_map_find, List.length_set]
            rw [hidx, getD_set_self _ _ _ hlt]
            rfl
          rw [← h2]
          refine ⟨rfl, rfl, ?_, ?_⟩
          · exact find_none_key_exists hasher keyEq _ key hfind2
          · exact find_none_get hasher keyEq _ key hfind2

/-- Witness for C9: with entry allocation failing, setting key 5 in the
empty one-bucket map returns BAD_ALLOC and leaves the map observably
empty. -/
theorem C9_witness :
    (rcutils_hash_map_set (fun n : Nat => n) (fun a b : Nat => a == b)
        ({ map := [none], size := 0 } : rcutils_hash_map_t Nat Nat) 5 7
        { allOk with entry_ok := false }).1 = RCUTILS_RET_BAD_ALLOC ∧
    (rcutils_hash_map_set (fun n : Nat => n) (fun a b : Nat => a == b)
        ({ map := [none], size := 0 } : rcutils_hash_map_t Nat Nat) 5 7
        { allOk with entry_ok := false }).2.size = 0 ∧
    rcutils_hash_map_key_exists (fun n : Nat => n) (fun a b : Nat => a == b)
      (rcutils_hash_map_set (fun n : Nat => n) (fun a b : Nat => a == b)
        ({ map := [none], size := 0 } : rcutils_hash_map_t Nat Nat) 5 7
        { allOk with entry_ok := false }).2 5 = false ∧
    rcutils_hash_map_get (fun n : Nat => n) (fun a b : Nat => a == b)
      (rcutils_hash_map_set (fun n : Nat => n) (fun a b : Nat => a == b)
        ({ map := [none], size := 0 } : rcutils_hash_map_t Nat Nat) 5 7
        { allOk with entry_ok := false }).2 5 = (RCUTILS_RET_NOT_FOUND, none) :=
  C9_theorem (fun n => n) (fun a b => a == b) { map := [none], size := 0 } _ 5 7
    { allOk with entry_ok := false } _ wf_empty_one (by decide) rfl (by decide)

/-- C7 counterexample: growth failure is non-fatal (set still returns OK),
so three sets under a failing grow drive a capacity-1 map to load 3; the
fourth set's grow then succeeds, doubling the capacity once to 2, yet the
resulting load 4/2 = 2 still exceeds 0.75.  So after that set the load
exceeds 0.75 even though the grow attempted by that set did not fail. -/
theorem C7_counterexample :
    (rcutils_hash_map_set (fun n : Nat => n) (fun a b : Nat => a == b)
      (rcutils_hash_map_set (fun n : Nat => n) (fun a b : Nat => a == b)
        (rcutils_hash_map_set (fun n : Nat => n) (fun a b : Nat => a == b)
          (rcutils_hash_map_set (fun n : Nat => n) (fun a b : Nat => a == b)
            ({ map := [none], size := 0 } : rcutils_hash_map_t Nat Nat)
            0 0 { allOk with grow_ok := false }).2
          1 1 { allOk with grow_ok := false }).2
        2 2 { allOk with grow_ok := false }).2
      3 3 allOk).1 = RCUTILS_RET_OK ∧
    allOk.grow_ok = true ∧
    (rcutils_hash_map_set (fun n : Nat => n) (fun a b : Nat => a == b)
      (rcutils_hash_map_set (fun n : Nat => n) (fun a b : Nat => a == b)
        (rcutils_hash_map_set (fun n : Nat => n) (fun a b : Nat => a == b)
          (rcutils_hash_map_set (fun n : Nat => n) (fun a b : Nat => a == b)
            ({ map := [none], size := 0 } : rcutils_hash_map_t Nat Nat)
            0 0 { allOk with grow_ok := false }).2
          1 1 { allOk with grow_ok := false }).2
        2 2 { allOk with grow_ok := false }).2
      3 3 allOk).2.size = 4 ∧
    (rcutils_hash_map_set (fun n : Nat => n) (fun a b : Nat => a == b)
      (rcutils_hash_map_set (fun n : Nat => n) (fun a b : Nat => a == b)
        (rcutils_hash_map_set (fun n : Nat => n) (fun a b : Nat => a == b)
          (rcutils_hash_map_set (fun n : Nat => n) (fun a b : Nat => a == b)
            ({ map := [none], size := 0 } : rcutils_hash_map_t Nat Nat)
            0 0 { allOk with grow_ok := false }).2
          1 1 { allOk with grow_ok := false }).2
        2 2 { allOk with grow_ok := false }).2
      3 3 allOk).2.map.length = 2 := by
  decide

/-- C7 (amended): if before the set the load factor is at most 0.75
(4*size ≤ 3*capacity, capacity non-zero), then after the set either the
load factor is again at most 0.75 or the grow attempted by that set
failed; and whenever the threshold is met and the grow succeeds,
check_and_grow doubles the capacity and rehashes every existing entry
(a permutation of the old entries) into bucket hashed_key mod the doubled
capacity. -/
theorem C7_theorem {α β : Type} (hasher : α → Nat) (keyEq : α → α → Bool)
    (m m2 : rcutils_hash_map_t α β) (key : α) (v : β) (plan : SetAllocPlan)
    (ret : RcutilsRet)
    (hcap : m.map.length ≠ 0)
    (hpre : 4 * m.size ≤ 3 * m.map.length)
    (hset : rcutils_hash_map_set hasher keyEq m key v plan = (ret, m2)) :
    (4 * m2.size ≤ 3 * m2.map.length ∨ plan.grow_ok = false) ∧
    (∀ m' : rcutils_hash_map_t α β, m'.map.length ≠ 0 →
      m'.size ≥ 3 * m'.map.length / 4 →
      hash_map_check_and_grow_map m' true =
        (RCUTILS_RET_OK, { map := rehash m'.map (2 * m'.map.length), size := m'.size }) ∧
      (rehash m'.map (2 * m'.map.length)).length = 2 * m'.map.length ∧
      (flatB (rehash m'.map (2 * m'.map.length))).Perm (flatB m'.map) ∧
      (∀ j, ((rehash m'.map (2 * m'.map.length)).getD j none).getD [] =
        (flatB m'.map).filter (fun e => e.hashed_key % (2 * m'.map.length) == j))) := by
  constructor
  · rw [rcutils_hash_map_set] at hset
    rcases hf : hash_map_find hasher keyEq m key with _ | ⟨mi, bi, e⟩
    · -- fresh insert
      simp only [hf] at hset
      rcases hres : hash_map_insert_entry m.map (hasher key &&& (m.map.length - 1))
          { hashed_key := hasher key, key := key, value := v }
          plan.bucket_init_ok plan.bucket_add_ok with ⟨r, map1⟩
      have hl1 : map1.length = m.map.length :=
        insert_entry_length _ _ _ _ _ _ _ hres
      split at hset
      · have hm2 : m = m2 := congrArg Prod.snd hset
        rw [← hm2]
        exact Or.inl hpre
      · split at hset
        · have hm2 : m = m2 := congrArg Prod.snd hset
          rw [← hm2]
          exact Or.inl hpre
        · rw [hres] at hset
          by_cases hr : r = RCUTILS_RET_OK
          · subst hr
            simp only [Prod.mk.injEq] at hset
            obtain ⟨-, hm2⟩ := hset
            rw [hash_map_check_and_grow_map] at hm2
            split at hm2
            · split at hm2
              · have hm2' : ({ map := rehash map1 (2 * map1.length), size := m.size + 1 } :
                    rcutils_hash_map_t α β) = m2 := hm2
                rw [← hm2']
                left
                show 4 * (m.size + 1) ≤ 3 * (rehash map1 (2 * map1.length)).length
                rw [rehash_length, hl1]
                omega
              · right
                rename_i hgfalse
                simp only [Bool.not_eq_true] at hgfalse
                exact hgfalse
            · rename_i hno
              have hm2' : ({ map := map1, size := m.size + 1 } :
                  rcutils_hash_map_t α β) = m2 := hm2
              rw [← hm2']
              left
              show 4 * (m.size + 1) ≤ 3 * map1.length
              simp only [not_le] at hno
              have hno' : m.size + 1 < 3 * map1.length / 4 := hno
              omega
          · obtain ⟨hrb, -⟩ := insert_entry_fail _ _ _ _ _ _ _ hres hr
            subst hrb
            simp only [Prod.mk.injEq] at hset
            obtain ⟨-, hm2⟩ := hset
            have hm2' : ({ m with map := map1 } : rcutils_hash_map_t α β) = m2 := hm2
            rw [← hm2']
            left
            show 4 * m.size ≤ 3 * map1.length
            rw [hl1]
            exact hpre
    · -- overwrite
      simp only [hf] at hset
      have hm2 : (hash_map_check_and_grow_map
          { m with map := updateEntryValue m.map mi bi v } plan.grow_ok).2 = m2 :=
        congrArg Prod.snd hset
      have hul : (updateEntryValue m.map mi bi v).length = m.map.length :=
        updateEntryValue_length _ _ _ _
      rw [hash_map_check_and_grow_map] at hm2
      split at hm2
      · split at hm2
        · have hm2' : ({ map := (rehash (updateEntryValue m.map mi bi v)
              (2 * (updateEntryValue m.map mi bi v).length)), size := m.size } :
              rcutils_hash_map_t α β) = m2 := hm2
          rw [← hm2']
          left
          show 4 * m.size ≤
            3 * (rehash (updateEntryValue m.map mi bi v)
              (2 * (updateEntryValue m.map mi bi v).length)).length
          rw [rehash_length, hul]
          omega
        · right
          rename_i hgfalse
          simp only [Bool.not_eq_true] at hgfalse
          exact hgfalse
      · have hm2' : ({ m with map := updateEntryValue m.map mi bi v } :
            rcutils_hash_map_t α β) = m2 := hm2
        rw [← hm2']
        left
        show 4 * m.size ≤ 3 * (updateEntryValue m.map mi bi v).length
        rw [hul]
        exact hpre
  · intro m' hlen' htrig
    refine ⟨?_, rehash_length _ _, rehash_perm _ _ (by omega),
      fun j => rehash_getD _ _ (by omega) j⟩
    rw [hash_map_check_and_grow_map, if_pos htrig, if_pos rfl]

/-- Witness for C7: setting key 5 in the well-loaded empty one-bucket map
keeps the load factor at most 0.75 (the grow succeeds, doubling the
capacity to 2 for the single entry), and the grow characterization holds.
-/
theorem C7_witness :
    (4 * (rcutils_hash_map_set (fun n : Nat => n) (fun a b : Nat => a == b)
        ({ map := [none], size := 0 } : rcutils_hash_map_t Nat Nat) 5 7 allOk).2.size ≤
      3 * (rcutils_hash_map_set (fun n : Nat => n) (fun a b : Nat => a == b)
        ({ map := [none], size := 0 } : rcutils_hash_map_t Nat Nat) 5 7 allOk).2.map.length ∨
      allOk.grow_ok = false) ∧
    (∀ m' : rcutils_hash_map_t Nat Nat, m'.map.length ≠ 0 →
      m'.size ≥ 3 * m'.map.length / 4 →
      hash_map_check_and_grow_map m' true =
        (RCUTILS_RET_OK, { map := rehash m'.map (2 * m'.map.length), size := m'.size }) ∧
      (rehash m'.map (2 * m'.map.length)).length = 2 * m'.map.length ∧
      (flatB (rehash m'.map (2 * m'.map.length))).Perm (flatB m'.map) ∧
      (∀ j, ((rehash m'.map (2 * m'.map.length)).getD j none).getD [] =
        (flatB m'.map).filter (fun e => e.hashed_key % (2 * m'.map.length) == j))) :=
  C7_theorem (fun n => n) (fun a b => a == b) { map := [none], size := 0 } _ 5 7 allOk _
    (by decide) (by decide) rfl

namespace HashMap

variable {α β : Type}

/-- Splitting a list at a unique occurrence is unambiguous. -/
theorem append_cons_inj {γ : Type} (P : List γ) (c : γ) :
    ∀ (A R B : List γ), P ++ c :: R = A ++ c :: B → c ∉ P → c ∉ A →
      P = A ∧ R = B := by
  induction P with
  | nil =>
    intro A R B h hP hA
    rcases A with _ | ⟨a, A'⟩
    · simp at h
      exact ⟨rfl, h⟩
    · simp at h
      obtain ⟨hc, -⟩ := h
      exact absurd (by rw [hc]; exact List.mem_cons_self a A' : c ∈ a :: A') hA
  | cons p P' ih =>
    intro A R B h hP hA
    rcases A with _ | ⟨a, A'⟩
    · simp at h
      obtain ⟨hc, -⟩ := h
      exact absurd (by rw [← hc]; exact List.mem_cons_self p P' : c ∈ p :: P') hP
    · simp only [List.cons_append, List.cons.injEq] at h
      obtain ⟨hpa, h'⟩ := h
      obtain ⟨h1, h2⟩ := ih A' R B h' (fun hc => hP (List.mem_cons_of_mem p hc))
        (fun hc => hA (List.mem_cons_of_mem a hc))
      exact ⟨by rw [hpa, h1], h2⟩

/-- Erasing the middle element of a decomposed list. -/
theorem eraseIdx_middle {γ : Type} (b1 b2 : List γ) (c : γ) :
    (b1 ++ c :: b2).eraseIdx b1.length = b1 ++ b2 := by
  induction b1 with
  | nil => rfl
  | cons a t ih => simpa [List.eraseIdx] using ih

/-- find? ignores an element inserted mid-list on which the predicate
fails. -/
theorem find?_middle_false {γ : Type} (p : γ → Bool) (A B C : List γ) (x : γ)
    (hx : p x = false) :
    (A ++ (B ++ [x]) ++ C).find? p = (A ++ B ++ C).find? p := by
  induction A with
  | nil =>
    simp only [List.nil_append]
    induction B with
    | nil => simp [List.find?_cons, hx]
    | cons b B' ihB =>
      simp only [List.cons_append, List.find?_cons]
      rcases hpb : p b with _ | _
      · simpa using ihB
      · rfl
  | cons a A' ihA =>
    simp only [List.cons_append, List.find?_cons]
    rcases hpa : p a with _ | _
    · simpa using ihA
    · rfl

/-- find? respects pointwise-equal predicates. -/
theorem find?_congr_mem {γ : Type} (p q : γ → Bool) (l : List γ)
    (h : ∀ x ∈ l, p x = q x) : l.find? p = l.find? q := by
  induction l with
  | nil => rfl
  | cons a t ih =>
    rw [List.find?_cons, List.find?_cons, h a (List.mem_cons_self a t)]
    rcases q a with _ | _
    · exact ih (fun x hx => h x (List.mem_cons_of_mem a hx))
    · rfl

/-- With both bucket allocations succeeding, insert_entry returns OK. -/
theorem insert_entry_true_ok (map : List (Option (List (rcutils_hash_map_entry_t α β))))
    (idx : Nat) (entry : rcutils_hash_map_entry_t α β) :
    (hash_map_insert_entry map idx entry true true).1 = RCUTILS_RET_OK := by
  rw [hash_map_insert_entry]
  rcases hb : map.getD idx none with _ | bucket <;> simp

/-- check_and_grow never changes the size counter. -/
theorem grow_size (m : rcutils_hash_map_t α β) (g : Bool) :
    (hash_map_check_and_grow_map m g).2.size = m.size := by
  rw [hash_map_check_and_grow_map]
  by_cases ht : m.size ≥ 3 * m.map.length / 4
  · rw [if_pos ht]
    cases g
    · rw [if_neg (by simp)]
    · rw [if_pos rfl]
  · rw [if_neg ht]

end HashMap

namespace Logging

/-! ### The logging severity map (logging.c), shallowly embedded.

Keys are logger names: NUL-free strings as `List Char`.  Values are the
stored severity levels: C ints, all non-negative here (the levels 0..50,
with bit 0 possibly set as the user-set mark), embedded as `Nat`. -/

/-- rcutils_hash_map_string_hash_func of hash_map.c: the djb2 hash
(hash = hash * 33 + c, via (hash << 5) + hash), with size_t arithmetic
modulo 2^64. -/
def rcutils_hash_map_string_hash_func (s : List Char) : Nat :=
  s.foldl (fun hash c => ((hash <<< 5) + hash + c.toNat) % 2 ^ 64) 5381

/-- rcutils_hash_map_string_cmp_func: strcmp equality on NUL-free
strings. -/
def rcutils_hash_map_string_cmp_func (a b : List Char) : Bool := a == b

/-- RCUTILS_LOG_SEVERITY_UNSET. -/
def RCUTILS_LOG_SEVERITY_UNSET : Nat := 0

/-- g_rcutils_log_severity_names: 51 slots, with names at the severity
values 0, 10, 20, 30, 40, 50 and NULL everywhere else. -/
def g_rcutils_log_severity_names : List (Option (List Char)) :=
  (List.range 51).map (fun i =>
    if i = 0 then some "UNSET".data
    else if i = 10 then some "DEBUG".data
    else if i = 20 then some "INFO".data
    else if i = 30 then some "WARN".data
    else if i = 40 then some "ERROR".data
    else if i = 50 then some "FATAL".data
    else none)

/-- The process-global logging state relevant to severity resolution. -/
structure LoggingState where
  severities_map : rcutils_hash_map_t (List Char) Nat
  severities_map_valid : Bool
  default_logger_level : Nat

/-- The backward scan of rcutils_find_lastn: the largest index i < n with
s[i] = delim. -/
def find_last_aux (s : List Char) (delim : Char) : Nat → Option Nat
  | 0 => none
  | n + 1 => if s.getD n nulChar = delim then some n else find_last_aux s delim n

/-- rcutils_find_lastn: last position of the delimiter among the first
string_length characters, SIZE_MAX (none) when absent or the length is
0. -/
def rcutils_find_lastn (s : List Char) (delim : Char) (len : Nat) : Option Nat :=
  if len = 0 then none else find_last_aux s delim len

/-- get_severity_level of logging.c: hash-map lookup followed by clearing
the user-set mark (severity &= ~0x1; the stored values are non-negative C
ints, so the mask is bitwise and with 0xFFFFFFFE). -/
def get_severity_level (m : rcutils_hash_map_t (List Char) Nat) (name : List Char) :
    RcutilsRet × Option Nat :=
  match HashMap.rcutils_hash_map_get rcutils_hash_map_string_hash_func
      rcutils_hash_map_string_cmp_func m name with
  | (RCUTILS_RET_OK, some sev) => (RCUTILS_RET_OK, some (sev &&& 0xFFFFFFFE))
  | (ret, _) => (ret, none)

/-- The slow-path loop of rcutils_logging_get_logger_effective_level.
substring_length strictly decreases every iteration, so a fuel of
name.length + 1 always suffices; the returned severity is UNSET when no
ancestor has a non-UNSET level. -/
def effective_level_walk (m : rcutils_hash_map_t (List Char) Nat) (name : List Char) :
    Nat → Nat → Nat
  | 0, _ => RCUTILS_LOG_SEVERITY_UNSET
  | fuel + 1, len =>
    match rcutils_find_lastn name '.' len with
    | none => RCUTILS_LOG_SEVERITY_UNSET
    | some idx =>
      match get_severity_level m (name.take idx) with
      | (RCUTILS_RET_OK, some sev) =>
        if sev ≠ RCUTILS_LOG_SEVERITY_UNSET then sev
        else effective_level_walk m name fuel idx
      | _ => effective_level_walk m name fuel idx

/-- rcutils_logging_get_logger_effective_level.  The model's
get_severity_level only returns OK or NOT_FOUND, so the code's error
return of -1 for other codes is dead here; hash_map_get_size always
succeeds. -/
def rcutils_logging_get_logger_effective_level (st : LoggingState)
    (name : List Char) : Nat :=
  if st.severities_map.size = 0 then st.default_logger_level
  else
    match get_severity_level st.severities_map name with
    | (RCUTILS_RET_OK, some sev) =>
      if sev ≠ RCUTILS_LOG_SEVERITY_UNSET then sev
      else
        let w := effective_level_walk st.severities_map name (name.length + 1) name.length
        if w = RCUTILS_LOG_SEVERITY_UNSET then st.default_logger_level else w
    | _ =>
      let w := effective_level_walk st.severities_map name (name.length + 1) name.length
      if w = RCUTILS_LOG_SEVERITY_UNSET then st.default_logger_level else w

/-- add_key_to_hash_map: user-set levels are marked by setting bit 0
before storage; a failed hash_map_set is reported as RCUTILS_RET_ERROR.
The strdup of the key is modeled as succeeding. -/
def add_key_to_hash_map (m : rcutils_hash_map_t (List Char) Nat)
    (name : List Char) (level : Nat) (set_by_user : Bool) :
    RcutilsRet × rcutils_hash_map_t (List Char) Nat :=
  let level' := if set_by_user then level ||| 1 else level
  match HashMap.rcutils_hash_map_set rcutils_hash_map_string_hash_func
      rcutils_hash_map_string_cmp_func m name level' allOk with
  | (RCUTILS_RET_OK, m') => (RCUTILS_RET_OK, m')
  | (_, m') => (RCUTILS_RET_ERROR, m')

/-- The removal condition of the purge loop in
rcutils_logging_set_logger_level: the key starts with the name
(strncmp(name, key, name_length) == 0), and either ends right there
(key[name_length] == '\0': the key equals the name, removed
unconditionally) or has the user-set bit clear. -/
def should_purge (name : List Char) (nl : Nat) (key : List Char) (tmp_level : Nat) :
    Bool :=
  if name.isPrefixOf key then
    if key.length = nl then true else tmp_level % 2 = 0
  else false

/-- The purge loop of rcutils_logging_set_logger_level: iterate with
get_next_key_and_data, fetching the next entry before unsetting the
current one.  Each stored entry is visited once, so a fuel of size + 1
suffices.  The model's get_next only returns OK, NOT_FOUND or
NO_MORE_ENTRIES, so the code's early error return is dead here. -/
def severity_map_purge_loop (name : List Char) (nl : Nat) :
    Nat → rcutils_hash_map_t (List Char) Nat →
    RcutilsRet × Option (List Char × Nat) → rcutils_hash_map_t (List Char) Nat
  | 0, m, _ => m
  | fuel + 1, m, (ret, cur) =>
    if ret = RCUTILS_RET_OK then
      match cur with
      | some (key, tmp_level) =>
        let free_current := should_purge name nl key tmp_level
        let next := HashMap.rcutils_hash_map_get_next_key_and_data
          rcutils_hash_map_string_hash_func rcutils_hash_map_string_cmp_func m (some key)
        let m' := if free_current then
            (HashMap.rcutils_hash_map_unset rcutils_hash_map_string_hash_func
              rcutils_hash_map_string_cmp_func m key).2
          else m
        severity_map_purge_loop name nl fuel m' next
      | none => m
    else m

/-- The full purge sweep over the severities map. -/
def severity_map_purge (m : rcutils_hash_map_t (List Char) Nat) (name : List Char) :
    rcutils_hash_map_t (List Char) Nat :=
  severity_map_purge_loop name name.length (m.size + 1) m
    (HashMap.rcutils_hash_map_get_next_key_and_data
      rcutils_hash_map_string_hash_func rcutils_hash_map_string_cmp_func m none)

/-- rcutils_logging_set_logger_level.  Allocations are modeled as
succeeding; note the default logger level is updated for the empty name
even when add_key_to_hash_map failed, mirroring the code. -/
def rcutils_logging_set_logger_level (st : LoggingState) (name : List Char)
    (level : Nat) : RcutilsRet × LoggingState :=
  if st.severities_map_valid = false then
    (RCUTILS_RET_LOGGING_SEVERITY_MAP_INVALID, st)
  else if 51 ≤ level then (RCUTILS_RET_INVALID_ARGUMENT, st)
  else
    match g_rcutils_log_severity_names.getD level none with
    | none => (RCUTILS_RET_INVALID_ARGUMENT, st)
    | some _ =>
      let m1 :=
        if HashMap.rcutils_hash_map_key_exists rcutils_hash_map_string_hash_func
            rcutils_hash_map_string_cmp_func st.severities_map name then
          severity_map_purge st.severities_map name
        else st.severities_map
      match add_key_to_hash_map m1 name level true with
      | (akret, m2) =>
        let dflt := if name.length = 0 then level else st.default_logger_level
        (akret, { st with severities_map := m2, default_logger_level := dflt })

/-- A helper for termination and fuel bookkeeping: find_last_aux only
returns indices below its bound. -/
theorem find_last_aux_lt (s : List Char) (d : Char) :
    ∀ n i, find_last_aux s d n = some i → i < n := by
  intro n
  induction n with
  | zero => intro i h; simp [find_last_aux] at h
  | succ n ih =>
    intro i h
    rw [find_last_aux] at h
    split at h
    · simp only [Option.some.injEq] at h
      omega
    · have := ih i h
      omega

/-- rcutils_find_lastn only returns indices below the length bound. -/
theorem rcutils_find_lastn_lt (s : List Char) (d : Char) (len i : Nat)
    (h : rcutils_find_lastn s d len = some i) : i < len := by
  rw [rcutils_find_lastn] at h
  split at h
  · simp at h
  · exact find_last_aux_lt s d len i h

/-- Modelled from the spec: the chain of ancestor names obtained by
repeatedly trimming the name at the rightmost '.', starting from the
given length bound. -/
def ancestorChainN (name : List Char) (len : Nat) : List (List Char) :=
  match h : rcutils_find_lastn name '.' len with
  | none => []
  | some i => name.take i :: ancestorChainN name i
termination_by len
decreasing_by exact rcutils_find_lastn_lt name '.' len i h

/-- Modelled from the spec: a logger's own configured level — the stored
severity with the user-set mark cleared — when the map holds a non-UNSET
entry for the name. -/
def configuredLevel (m : rcutils_hash_map_t (List Char) Nat) (anc : List Char) :
    Option Nat :=
  match get_severity_level m anc with
  | (RCUTILS_RET_OK, some sev) =>
    if sev ≠ RCUTILS_LOG_SEVERITY_UNSET then some sev else none
  | _ => none

/-- Modelled from the spec: effective severity resolution returns the
first non-UNSET configured level along the name and its ancestor chain,
falling back to the process default. -/
def effectiveLevelSpec (m : rcutils_hash_map_t (List Char) Nat) (dflt : Nat)
    (name : List Char) : Nat :=
  match (name :: ancestorChainN name name.length).findSome? (configuredLevel m) with
  | some sev => sev
  | none => dflt

/-- findSome? over a list on which the function always misses. -/
theorem findSome?_none_of_all {γ δ : Type} (f : γ → Option δ) (l : List γ)
    (h : ∀ x ∈ l, f x = none) : l.findSome? f = none := by
  induction l with
  | nil => rfl
  | cons a t ih =>
    rw [List.findSome?_cons, h a (List.mem_cons_self a t)]
    exact ih (fun x hx => h x (List.mem_cons_of_mem a hx))

/-- Lookups on an empty severity map miss. -/
theorem get_severity_empty (m : rcutils_hash_map_t (List Char) Nat)
    (h : m.size = 0) (anc : List Char) :
    get_severity_level m anc = (RCUTILS_RET_NOT_FOUND, none) := by
  rw [get_severity_level]
  rw [show HashMap.rcutils_hash_map_get rcutils_hash_map_string_hash_func
      rcutils_hash_map_string_cmp_func m anc = (RCUTILS_RET_NOT_FOUND, none) from by
    rw [HashMap.rcutils_hash_map_get, if_pos h]]

/-- Nothing is configured in an empty severity map. -/
theorem configuredLevel_empty (m : rcutils_hash_map_t (List Char) Nat)
    (h : m.size = 0) (anc : List Char) : configuredLevel m anc = none := by
  rw [configuredLevel, get_severity_empty m h]

/-- A configured level is never UNSET. -/
theorem configuredLevel_ne_unset (m : rcutils_hash_map_t (List Char) Nat)
    (anc : List Char) (s : Nat) (h : configuredLevel m anc = some s) :
    s ≠ RCUTILS_LOG_SEVERITY_UNSET := by
  rw [configuredLevel] at h
  split at h
  · split at h
    · simp only [Option.some.injEq] at h
      rename_i hne
      rw [← h]
      exact hne
    · simp at h
  · simp at h

/-- The slow-path loop computes the first non-UNSET configured level
along the ancestor chain (UNSET when there is none), for any sufficient
fuel. -/
theorem effective_level_walk_spec (m : rcutils_hash_map_t (List Char) Nat)
    (name : List Char) :
    ∀ fuel len, len < fuel →
    effective_level_walk m name fuel len =
      (match (ancestorChainN name len).findSome? (configuredLevel m) with
      | some sev => sev
      | none => RCUTILS_LOG_SEVERITY_UNSET) := by
  intro fuel
  induction fuel with
  | zero =>
    intro len h
    omega
  | succ fuel ih =>
    intro len hlen
    rw [effective_level_walk]
    conv_rhs => rw [ancestorChainN]
    rcases hf : rcutils_find_lastn name '.' len with _ | i
    · simp only [hf]
      rfl
    · simp only [hf]
      have hi : i < len := rcutils_find_lastn_lt name '.' len i hf
      rw [List.findSome?_cons]
      rw [show configuredLevel m (name.take i) =
          (match get_severity_level m (name.take i) with
          | (RCUTILS_RET_OK, some sev) =>
            if sev ≠ RCUTILS_LOG_SEVERITY_UNSET then some sev else none
          | _ => none) from rfl]
      rcases hg : get_severity_level m (name.take i) with ⟨ret, osev⟩
      rcases osev with _ | sev
      · rcases ret <;> exact ih i (by omega)
      · rcases ret with _ | _ | _ | _ | _ | _ | _
        · dsimp only
          by_cases hs : sev ≠ RCUTILS_LOG_SEVERITY_UNSET
          · rw [if_pos hs, if_pos hs]
          · rw [if_neg hs, if_neg hs]
            exact ih i (by omega)
        all_goals exact ih i (by omega)

/-- A successful findSome? comes from some member. -/
theorem findSome?_mem {γ δ : Type} (f : γ → Option δ) (l : List γ) (b : δ)
    (h : l.findSome? f = some b) : ∃ a ∈ l, f a = some b := by
  induction l with
  | nil => simp [List.findSome?] at h
  | cons a t ih =>
    rw [List.findSome?_cons] at h
    rcases hf : f a with _ | c
    · rw [hf] at h
      obtain ⟨x, hx, hfx⟩ := ih h
      exact ⟨x, List.mem_cons_of_mem a hx, hfx⟩
    · rw [hf] at h
      exact ⟨a, List.mem_cons_self a t, by rw [hf]; exact h⟩

/-- The default fallback of the effective-level computation agrees with
the spec-side chain walk. -/
theorem walk_branch (m : rcutils_hash_map_t (List Char) Nat) (name : List Char)
    (dflt : Nat) :
    (let w := effective_level_walk m name (name.length + 1) name.length
     if w = RCUTILS_LOG_SEVERITY_UNSET then dflt else w) =
      (match (ancestorChainN name name.length).findSome? (configuredLevel m) with
      | some sev => sev
      | none => dflt) := by
  have hw := effective_level_walk_spec m name (name.length + 1) name.length (by omega)
  dsimp only
  rw [hw]
  rcases hcf : (ancestorChainN name name.length).findSome? (configuredLevel m)
    with _ | s
  · rw [if_pos rfl]
  · obtain ⟨a, -, ha⟩ := findSome?_mem (configuredLevel m) _ s hcf
    rw [if_neg (configuredLevel_ne_unset m a s ha)]

end Logging

open Logging

/-- C1: effective severity resolution walks the ancestor chain: it
returns the first non-UNSET configured level of the name or of its
successively dot-trimmed ancestors, and the process default when none is
set; in particular, after set_logger_level("a.b", 30) on a fresh state
with "a" unset, get_effective_level("a.b.c") returns 30. -/
theorem C1_theorem :
    (∀ (st : LoggingState) (name : List Char),
      rcutils_logging_get_logger_effective_level st name =
        effectiveLevelSpec st.severities_map st.default_logger_level name) ∧
    ((Logging.rcutils_logging_set_logger_level
        { severities_map := { map := [none], size := 0 },
          severities_map_valid := true, default_logger_level := 20 }
        "a.b".data 30).1 = RCUTILS_RET_OK ∧
      rcutils_logging_get_logger_effective_level
        (Logging.rcutils_logging_set_logger_level
          { severities_map := { map := [none], size := 0 },
            severities_map_valid := true, default_logger_level := 20 }
          "a.b".data 30).2 "a.b.c".data = 30) := by
  refine ⟨?_, by decide⟩
  intro st name
  rw [rcutils_logging_get_logger_effective_level, effectiveLevelSpec]
  by_cases hsz : st.severities_map.size = 0
  · rw [if_pos hsz]
    rw [findSome?_none_of_all (configuredLevel st.severities_map) _
      (fun x _ => configuredLevel_empty _ hsz x)]
  · rw [if_neg hsz]
    rw [List.findSome?_cons]
    rw [show configuredLevel st.severities_map name =
        (match get_severity_level st.severities_map name with
        | (RCUTILS_RET_OK, some sev) =>
          if sev ≠ RCUTILS_LOG_SEVERITY_UNSET then some sev else none
        | _ => none) from rfl]
    rcases hg : get_severity_level st.severities_map name with ⟨ret, osev⟩
    rcases osev with _ | sev
    · rcases ret <;> exact walk_branch st.severities_map name st.default_logger_level
    · rcases ret with _ | _ | _ | _ | _ | _ | _
      · dsimp only
        by_cases hs : sev ≠ RCUTILS_LOG_SEVERITY_UNSET
        · rw [if_pos hs, if_pos hs]
        · rw [if_neg hs, if_neg hs]
          exact walk_branch st.severities_map name st.default_logger_level
      all_goals exact walk_branch st.severities_map name st.default_logger_level

namespace Logging

/-- On entries that store the hash of their key, the find predicate is
plain key equality. -/
theorem matches_eq_key (k : List Char) (e : rcutils_hash_map_entry_t (List Char) Nat)
    (he : e.hashed_key = rcutils_hash_map_string_hash_func e.key) :
    HashMap.matches_ rcutils_hash_map_string_cmp_func
      (rcutils_hash_map_string_hash_func k) k e = (e.key == k) := by
  rw [HashMap.matches_]
  by_cases h : e.key = k
  · subst h
    simp [he, rcutils_hash_map_string_cmp_func]
  · have h1 : (e.key == k) = false := beq_eq_false_iff_ne.2 h
    simp [rcutils_hash_map_string_cmp_func, h1]

/-- Every entry of a well-formed severity map stores the hash of its
key. -/
theorem stored_hash_of_mem (m : rcutils_hash_map_t (List Char) Nat)
    (hwf : HashMap.hashMapWF rcutils_hash_map_string_hash_func
      rcutils_hash_map_string_cmp_func m)
    (x : rcutils_hash_map_entry_t (List Char) Nat)
    (hx : x ∈ HashMap.entriesList m) :
    x.hashed_key = rcutils_hash_map_string_hash_func x.key := by
  obtain ⟨j, -, hxj⟩ := HashMap.mem_flatB m.map x hx
  exact (hwf.2.2.1 j x hxj).1

/-- Distinct keys identify entries. -/
theorem mem_key_unique :
    ∀ (l : List (rcutils_hash_map_entry_t (List Char) Nat)),
    HashMap.keysDistinct rcutils_hash_map_string_cmp_func l = true →
    ∀ x y, x ∈ l → y ∈ l → x.key = y.key → x = y := by
  intro l
  induction l with
  | nil =>
    intro _ x y hx _ _
    simp at hx
  | cons a t ih =>
    intro hd x y hx hy hk
    rw [HashMap.keysDistinct] at hd
    simp only [Bool.and_eq_true, List.all_eq_true] at hd
    obtain ⟨hall, hdt⟩ := hd
    have hcmp : ∀ z ∈ t, a.key ≠ z.key := by
      intro z hz
      have := hall z hz
      simp only [Bool.not_eq_eq_eq_not, Bool.not_true] at this
      intro he
      rw [show rcutils_hash_map_string_cmp_func a.key z.key = (a.key == z.key) from rfl,
        he] at this
      simp at this
    rcases List.mem_cons.1 hx with h1 | h1
    · rcases List.mem_cons.1 hy with h2 | h2
      · rw [h1, h2]
      · exact absurd hk (by rw [h1]; exact hcmp y h2)
    · rcases List.mem_cons.1 hy with h2 | h2
      · exact absurd hk.symm (by rw [h2]; exact hcmp x h1)
      · exact ih hdt x y h1 h2 hk

/-- find? by key on a distinct-key list returns the member with that
key. -/
theorem find?_unique_key :
    ∀ (l : List (rcutils_hash_map_entry_t (List Char) Nat)),
    HashMap.keysDistinct rcutils_hash_map_string_cmp_func l = true →
    ∀ e, e ∈ l → l.find? (fun x => x.key == e.key) = some e := by
  intro l
  induction l with
  | nil =>
    intro _ e he
    simp at he
  | cons a t ih =>
    intro hd e he
    rw [HashMap.keysDistinct] at hd
    simp only [Bool.and_eq_true, List.all_eq_true] at hd
    obtain ⟨hall, hdt⟩ := hd
    rcases List.mem_cons.1 he with rfl | he
    · exact List.find?_cons_of_pos t (beq_self_eq_true e.key)
    · have hne : (a.key == e.key) = false := by
        have := hall e he
        simp only [Bool.not_eq_eq_eq_not, Bool.not_true] at this
        rcases hb : (a.key == e.key) with _ | _
        · rfl
        · rw [show rcutils_hash_map_string_cmp_func a.key e.key = (a.key == e.key) from rfl,
            hb] at this
          simp at this
      have hstep : (a :: t).find? (fun x => x.key == e.key) =
          t.find? (fun x => x.key == e.key) :=
        List.find?_cons_of_neg t (by simp [hne])
      rw [hstep]
      exact ih hdt e he

/-- An entry whose key splits the flattened list is absent from the
prefix. -/
theorem not_mem_split_prefix (P R : List (rcutils_hash_map_entry_t (List Char) Nat))
    (cur : rcutils_hash_map_entry_t (List Char) Nat)
    (hd : HashMap.keysDistinct rcutils_hash_map_string_cmp_func
      (P ++ cur :: R) = true) : cur ∉ P := by
  intro hmem
  rw [HashMap.keysDistinct_iff_pairwise] at hd
  obtain ⟨-, -, hrel⟩ := List.pairwise_append.1 hd
  have := hrel cur hmem cur (List.mem_cons_self cur R)
  rw [show rcutils_hash_map_string_cmp_func cur.key cur.key = (cur.key == cur.key)
    from rfl, beq_self_eq_true] at this
  simp at this

/-- Dropping past the middle of a decomposed list. -/
theorem drop_middle {γ : Type} (b1 b2 : List γ) (c : γ) :
    (b1 ++ c :: b2).drop (b1.length + 1) = b2 := by
  rw [show b1 ++ c :: b2 = (b1 ++ [c]) ++ b2 by simp,
    show b1.length + 1 = (b1 ++ [c]).length by simp]
  exact List.drop_left (b1 ++ [c]) b2

/-- Locating an entry of a well-formed map at a given split of the
flattened list: find returns exactly that entry, and the bucket
decomposition aligns with the split. -/
theorem find_at_split (m : rcutils_hash_map_t (List Char) Nat)
    (hwf : HashMap.hashMapWF rcutils_hash_map_string_hash_func
      rcutils_hash_map_string_cmp_func m)
    (P R : List (rcutils_hash_map_entry_t (List Char) Nat))
    (cur : rcutils_hash_map_entry_t (List Char) Nat)
    (hsplit : HashMap.entriesList m = P ++ cur :: R) :
    ∃ mi b1 b2,
      HashMap.hash_map_find rcutils_hash_map_string_hash_func
        rcutils_hash_map_string_cmp_func m cur.key = some (mi, b1.length, cur) ∧
      mi < m.map.length ∧
      (m.map.getD mi none).getD [] = b1 ++ cur :: b2 ∧
      P = HashMap.flatB (m.map.take mi) ++ b1 ∧
      R = b2 ++ HashMap.flatB (m.map.drop (mi + 1)) := by
  have hcur_mem : cur ∈ HashMap.entriesList m := by
    rw [hsplit]
    exact List.mem_append.2 (Or.inr (List.mem_cons_self cur R))
  have hcur_hash := stored_hash_of_mem m hwf cur hcur_mem
  have hcur_matches : HashMap.matches_ rcutils_hash_map_string_cmp_func
      (rcutils_hash_map_string_hash_func cur.key) cur.key cur = true := by
    rw [matches_eq_key cur.key cur hcur_hash]
    exact beq_self_eq_true cur.key
  rcases hfind : HashMap.hash_map_find rcutils_hash_map_string_hash_func
      rcutils_hash_map_string_cmp_func m cur.key with _ | ⟨mi, bi, e'⟩
  · have := HashMap.find_none_char rcutils_hash_map_string_hash_func
      rcutils_hash_map_string_cmp_func m cur.key hwf hfind cur hcur_mem
    rw [hcur_matches] at this
    simp at this
  · obtain ⟨hmi_eq, hmi_lt, b1, b2, hbeq, hb1len, hme, hpre, hsplit2⟩ :=
      HashMap.find_some_char rcutils_hash_map_string_hash_func
        rcutils_hash_map_string_cmp_func m cur.key mi bi e' hwf hfind
    have he'key : e'.key = cur.key := by
      rw [HashMap.matches_] at hme
      simp only [Bool.and_eq_true] at hme
      have := hme.2
      rw [show rcutils_hash_map_string_cmp_func e'.key cur.key = (e'.key == cur.key)
        from rfl] at this
      exact beq_iff_eq.1 this
    have he'mem : e' ∈ HashMap.entriesList m := by
      rw [hsplit2]
      exact List.mem_append.2 (Or.inr (List.mem_cons_self e' _))
    have he'cur : e' = cur :=
      mem_key_unique (HashMap.entriesList m) hwf.2.2.2.1 e' cur he'mem hcur_mem he'key
    subst he'cur
    have hnotpre : e' ∉ HashMap.flatB (m.map.take mi) ++ b1 := by
      intro hmem
      have := hpre e' hmem
      rw [hcur_matches] at this
      simp at this
    have hnotP : e' ∉ P := by
      refine not_mem_split_prefix P R e' ?_
      rw [← hsplit]
      exact hwf.2.2.2.1
    obtain ⟨hPeq, hReq⟩ := HashMap.append_cons_inj P e'
      (HashMap.flatB (m.map.take mi) ++ b1) R
      (b2 ++ HashMap.flatB (m.map.drop (mi + 1)))
      (by rw [← hsplit, hsplit2]) hnotP hnotpre
    subst hb1len
    exact ⟨mi, b1, b2, rfl, hmi_lt, hbeq, hPeq, hReq⟩

/-- get_next_key_and_data from the start yields the head of the
flattened entry list. -/
theorem get_next_none_char (m : rcutils_hash_map_t (List Char) Nat)
    (hwf : HashMap.hashMapWF rcutils_hash_map_string_hash_func
      rcutils_hash_map_string_cmp_func m) :
    HashMap.rcutils_hash_map_get_next_key_and_data rcutils_hash_map_string_hash_func
      rcutils_hash_map_string_cmp_func m none =
      (match (HashMap.entriesList m).head? with
      | some e => (RCUTILS_RET_OK, some (e.key, e.value))
      | none => (RCUTILS_RET_HASH_MAP_NO_MORE_ENTRIES, none)) := by
  rw [HashMap.rcutils_hash_map_get_next_key_and_data]
  by_cases hsz : m.size = 0
  · rw [if_pos hsz]
    have hempty : HashMap.entriesList m = [] :=
      List.eq_nil_of_length_eq_zero (by rw [← hwf.2.2.2.2, hsz])
    rw [hempty]
    rfl
  · rw [if_neg hsz]
    rw [show HashMap.scanFrom m.map 0 = (HashMap.flatB m.map).head? from
      HashMap.scanFrom_zero m.map]
    rcases hh : (HashMap.flatB m.map).head? with _ | e
    · rw [show (HashMap.entriesList m).head? = none from hh]
    · rw [show (HashMap.entriesList m).head? = some e from hh]

/-- get_next_key_and_data from an entry located at a split of the
flattened list yields the next entry of the split. -/
theorem get_next_some_char (m : rcutils_hash_map_t (List Char) Nat)
    (hwf : HashMap.hashMapWF rcutils_hash_map_string_hash_func
      rcutils_hash_map_string_cmp_func m)
    (P R : List (rcutils_hash_map_entry_t (List Char) Nat))
    (cur : rcutils_hash_map_entry_t (List Char) Nat)
    (hsplit : HashMap.entriesList m = P ++ cur :: R) :
    HashMap.rcutils_hash_map_get_next_key_and_data rcutils_hash_map_string_hash_func
      rcutils_hash_map_string_cmp_func m (some cur.key) =
      (match R.head? with
      | some x => (RCUTILS_RET_OK, some (x.key, x.value))
      | none => (RCUTILS_RET_HASH_MAP_NO_MORE_ENTRIES, none)) := by
  obtain ⟨mi, b1, b2, hfind, hmi_lt, hbeq, hPeq, hReq⟩ :=
    find_at_split m hwf P R cur hsplit
  have hsz : m.size ≠ 0 := by
    rw [hwf.2.2.2.2, hsplit]
    simp
  rw [HashMap.rcutils_hash_map_get_next_key_and_data, if_neg hsz]
  simp only [hfind]
  have hscan : HashMap.scanFrom (m.map.drop mi) (b1.length + 1) = R.head? := by
    rw [HashMap.drop_eq_getD_cons m.map mi hmi_lt, HashMap.scanFrom_cons, hbeq,
      drop_middle b1 b2 cur, hReq]
  rw [hscan]
  rcases R.head? with _ | x <;> rfl

/-- Unsetting an entry located at a split of the flattened list removes
exactly that entry, preserving well-formedness. -/
theorem unset_char (m : rcutils_hash_map_t (List Char) Nat)
    (hwf : HashMap.hashMapWF rcutils_hash_map_string_hash_func
      rcutils_hash_map_string_cmp_func m)
    (P R : List (rcutils_hash_map_entry_t (List Char) Nat))
    (cur : rcutils_hash_map_entry_t (List Char) Nat)
    (hsplit : HashMap.entriesList m = P ++ cur :: R) :
    ∃ m', HashMap.rcutils_hash_map_unset rcutils_hash_map_string_hash_func
        rcutils_hash_map_string_cmp_func m cur.key = (RCUTILS_RET_OK, m') ∧
      HashMap.hashMapWF rcutils_hash_map_string_hash_func
        rcutils_hash_map_string_cmp_func m' ∧
      HashMap.entriesList m' = P ++ R := by
  obtain ⟨mi, b1, b2, hfind, hmi_lt, hbeq, hPeq, hReq⟩ :=
    find_at_split m hwf P R cur hsplit
  obtain ⟨hcap, hpow, hbuck, hdist, hsize⟩ := hwf
  have hsz : m.size ≠ 0 := by
    rw [hsize, hsplit]
    simp
  have hgd : m.map.getD mi none = some (b1 ++ cur :: b2) := by
    rcases hg : m.map.getD mi none with _ | bucket
    · rw [hg] at hbeq
      simp at hbeq
    · rw [hg] at hbeq
      simp only [Option.getD_some] at hbeq
      rw [hbeq]
  have herase : (b1 ++ cur :: b2).eraseIdx b1.length = b1 ++ b2 :=
    HashMap.eraseIdx_middle b1 b2 cur
  refine ⟨⟨m.map.set mi (some (b1 ++ b2)), m.size - 1⟩, ?_, ?_, ?_⟩
  · rw [HashMap.rcutils_hash_map_unset, if_neg hsz]
    simp only [hfind, hgd]
    rw [herase]
  · have hent' : HashMap.entriesList
        ({ map := m.map.set mi (some (b1 ++ b2)), size := m.size - 1 } :
          rcutils_hash_map_t (List Char) Nat) =
        HashMap.flatB (m.map.take mi) ++ (b1 ++ b2) ++
          HashMap.flatB (m.map.drop (mi + 1)) := by
      rw [HashMap.entriesList]
      rw [show ({ map := m.map.set mi (some (b1 ++ b2)), size := m.size - 1 } :
          rcutils_hash_map_t (List Char) Nat).map = m.map.set mi (some (b1 ++ b2))
        from rfl]
      rw [HashMap.flatB_set m.map mi _ hmi_lt]
      rfl
    refine ⟨by simpa using hcap, by simpa using hpow, ?_, ?_, ?_⟩
    · intro i x hx
      show x.hashed_key = rcutils_hash_map_string_hash_func x.key ∧
        x.hashed_key % (m.map.set mi (some (b1 ++ b2))).length = i
      rw [List.length_set]
      by_cases hi : i = mi
      · subst hi
        rw [show (m.map.set i (some (b1 ++ b2))).getD i none = some (b1 ++ b2) from
          HashMap.getD_set_self _ _ _ hmi_lt] at hx
        simp only [Option.getD_some] at hx
        refine hbuck i x ?_
        rw [hgd]
        simp only [Option.getD_some]
        rcases List.mem_append.1 hx with hx | hx
        · exact List.mem_append.2 (Or.inl hx)
        · exact List.mem_append.2 (Or.inr (List.mem_cons_of_mem cur hx))
      · rw [show (m.map.set mi (some (b1 ++ b2))).getD i none = m.map.getD i none from
          HashMap.getD_set_ne _ _ _ _ (fun h => hi h.symm)] at hx
        exact hbuck i x hx
    · rw [HashMap.keysDistinct_iff_pairwise]
      rw [HashMap.keysDistinct_iff_pairwise] at hdist
      refine List.Pairwise.sublist ?_ hdist
      rw [hent', hsplit, hPeq, hReq]
      have h1 : HashMap.flatB (m.map.take mi) ++ (b1 ++ b2) ++
          HashMap.flatB (m.map.drop (mi + 1)) =
          (HashMap.flatB (m.map.take mi) ++ b1) ++
            (b2 ++ HashMap.flatB (m.map.drop (mi + 1))) := by
        simp [List.append_assoc]
      have h2 : HashMap.flatB (m.map.take mi) ++ b1 ++ cur ::
          (b2 ++ HashMap.flatB (m.map.drop (mi + 1))) =
          (HashMap.flatB (m.map.take mi) ++ b1) ++ cur ::
            (b2 ++ HashMap.flatB (m.map.drop (mi + 1))) := by
        simp [List.append_assoc]
      rw [h1, h2]
      refine List.Sublist.append_left ?_ _
      exact List.sublist_cons_self cur _
    · show m.size - 1 = (HashMap.entriesList _).length
      rw [hent']
      have : m.size = (HashMap.entriesList m).length := hsize
      rw [hsplit, hPeq, hReq] at this
      simp only [List.length_append, List.length_cons] at this ⊢
      omega
  · have hent' : HashMap.entriesList
        ({ map := m.map.set mi (some (b1 ++ b2)), size := m.size - 1 } :
          rcutils_hash_map_t (List Char) Nat) =
        HashMap.flatB (m.map.take mi) ++ (b1 ++ b2) ++
          HashMap.flatB (m.map.drop (mi + 1)) := by
      rw [HashMap.entriesList]
      rw [show ({ map := m.map.set mi (some (b1 ++ b2)), size := m.size - 1 } :
          rcutils_hash_map_t (List Char) Nat).map = m.map.set mi (some (b1 ++ b2))
        from rfl]
      rw [HashMap.flatB_set m.map mi _ hmi_lt]
      rfl
    rw [hent', hPeq, hReq]
    simp [List.append_assoc]

/-- The purge loop stops as soon as get_next does not return OK. -/
theorem purge_loop_stop (name : List Char) (nl : Nat) (fuel : Nat)
    (m : rcutils_hash_map_t (List Char) Nat) (ret : RcutilsRet)
    (cur : Option (List Char × Nat)) (hret : ret ≠ RCUTILS_RET_OK) :
    severity_map_purge_loop name nl fuel m (ret, cur) = m := by
  cases fuel with
  | zero => rfl
  | succ fuel =>
    rw [severity_map_purge_loop.eq_def]
    dsimp only
    rw [if_neg hret]

/-- One unfolding of the purge loop on a live entry. -/
theorem purge_loop_step (name : List Char) (nl fuel : Nat)
    (m : rcutils_hash_map_t (List Char) Nat) (key : List Char) (lvl : Nat) :
    severity_map_purge_loop name nl (fuel + 1) m (RCUTILS_RET_OK, some (key, lvl)) =
      severity_map_purge_loop name nl fuel
        (if should_purge name nl key lvl then
          (HashMap.rcutils_hash_map_unset rcutils_hash_map_string_hash_func
            rcutils_hash_map_string_cmp_func m key).2
        else m)
        (HashMap.rcutils_hash_map_get_next_key_and_data
          rcutils_hash_map_string_hash_func rcutils_hash_map_string_cmp_func m
          (some key)) := rfl

/-- The purge loop removes exactly the entries matching the purge
condition from the unprocessed suffix, preserving well-formedness. -/
theorem purge_loop_char (name : List Char) (nl : Nat) :
    ∀ (fuel : Nat) (m : rcutils_hash_map_t (List Char) Nat)
      (P R : List (rcutils_hash_map_entry_t (List Char) Nat))
      (cur : rcutils_hash_map_entry_t (List Char) Nat),
    HashMap.hashMapWF rcutils_hash_map_string_hash_func
      rcutils_hash_map_string_cmp_func m →
    HashMap.entriesList m = P ++ cur :: R →
    (cur :: R).length ≤ fuel →
    HashMap.hashMapWF rcutils_hash_map_string_hash_func rcutils_hash_map_string_cmp_func
      (severity_map_purge_loop name nl fuel m
        (RCUTILS_RET_OK, some (cur.key, cur.value))) ∧
    HashMap.entriesList (severity_map_purge_loop name nl fuel m
        (RCUTILS_RET_OK, some (cur.key, cur.value))) =
      P ++ (cur :: R).filter (fun e => !should_purge name nl e.key e.value) := by
  intro fuel
  induction fuel with
  | zero =>
    intro m P R cur _ _ hf
    simp at hf
  | succ fuel ih =>
    intro m P R cur hwf hsplit hfuel
    rw [purge_loop_step]
    rw [get_next_some_char m hwf P R cur hsplit]
    by_cases hp : should_purge name nl cur.key cur.value = true
    · rw [if_pos hp]
      obtain ⟨m2, hunset, hwf2, hents2⟩ := unset_char m hwf P R cur hsplit
      rw [hunset]
      rcases R with _ | ⟨x, R'⟩
      · rw [show (match ([] : List (rcutils_hash_map_entry_t (List Char) Nat)).head? with
            | some x => (RCUTILS_RET_OK, some (x.key, x.value))
            | none => ((RCUTILS_RET_HASH_MAP_NO_MORE_ENTRIES : RcutilsRet),
                (none : Option (List Char × Nat)))) =
            (RCUTILS_RET_HASH_MAP_NO_MORE_ENTRIES, none) from rfl]
        rw [purge_loop_stop name nl fuel _ _ _ (by decide)]
        refine ⟨hwf2, ?_⟩
        show HashMap.entriesList m2 = _
        rw [hents2]
        simp [List.filter_cons, hp]
      · rw [show (match (x :: R').head? with
            | some x => (RCUTILS_RET_OK, some (x.key, x.value))
            | none => ((RCUTILS_RET_HASH_MAP_NO_MORE_ENTRIES : RcutilsRet),
                (none : Option (List Char × Nat)))) =
            (RCUTILS_RET_OK, some (x.key, x.value)) from rfl]
        have hrec := ih m2 P R' x hwf2 hents2 (by
          simp only [List.length_cons] at hfuel ⊢
          omega)
        refine ⟨hrec.1, ?_⟩
        rw [show ((cur :: x :: R').filter
            (fun e => !should_purge name nl e.key e.value)) =
            ((x :: R').filter (fun e => !should_purge name nl e.key e.value)) from by
          simp [List.filter_cons, hp]]
        exact hrec.2
    · rw [if_neg hp]
      have hpf : should_purge name nl cur.key cur.value = false := by
        rcases h : should_purge name nl cur.key cur.value with _ | _
        · rfl
        · exact absurd h hp
      rcases R with _ | ⟨x, R'⟩
      · rw [show (match ([] : List (rcutils_hash_map_entry_t (List Char) Nat)).head? with
            | some x => (RCUTILS_RET_OK, some (x.key, x.value))
            | none => ((RCUTILS_RET_HASH_MAP_NO_MORE_ENTRIES : RcutilsRet),
                (none : Option (List Char × Nat)))) =
            (RCUTILS_RET_HASH_MAP_NO_MORE_ENTRIES, none) from rfl]
        rw [purge_loop_stop name nl fuel _ _ _ (by decide)]
        refine ⟨hwf, ?_⟩
        rw [hsplit]
        simp [List.filter_cons, hpf]
      · rw [show (match (x :: R').head? with
            | some x => (RCUTILS_RET_OK, some (x.key, x.value))
            | none => ((RCUTILS_RET_HASH_MAP_NO_MORE_ENTRIES : RcutilsRet),
                (none : Option (List Char × Nat)))) =
            (RCUTILS_RET_OK, some (x.key, x.value)) from rfl]
        have hrec := ih m (P ++ [cur]) R' x hwf (by rw [hsplit]; simp) (by
          simp only [List.length_cons] at hfuel ⊢
          omega)
        refine ⟨hrec.1, ?_⟩
        rw [hrec.2]
        simp [List.filter_cons, hpf, List.append_assoc]

/-- The full purge removes exactly the matching entries. -/
theorem severity_map_purge_char (m : rcutils_hash_map_t (List Char) Nat)
    (name : List Char)
    (hwf : HashMap.hashMapWF rcutils_hash_map_string_hash_func
      rcutils_hash_map_string_cmp_func m) :
    HashMap.hashMapWF rcutils_hash_map_string_hash_func rcutils_hash_map_string_cmp_func
      (severity_map_purge m name) ∧
    HashMap.entriesList (severity_map_purge m name) =
      (HashMap.entriesList m).filter
        (fun e => !should_purge name name.length e.key e.value) := by
  rw [severity_map_purge]
  rw [get_next_none_char m hwf]
  rcases hE : HashMap.entriesList m with _ | ⟨c, r⟩
  · rw [show (match ([] : List (rcutils_hash_map_entry_t (List Char) Nat)).head? with
        | some e => (RCUTILS_RET_OK, some (e.key, e.value))
        | none => ((RCUTILS_RET_HASH_MAP_NO_MORE_ENTRIES : RcutilsRet),
            (none : Option (List Char × Nat)))) =
        (RCUTILS_RET_HASH_MAP_NO_MORE_ENTRIES, none) from rfl]
    rw [purge_loop_stop name name.length (m.size + 1) m _ _ (by decide)]
    refine ⟨hwf, ?_⟩
    rw [hE]
    rfl
  · rw [show (match (c :: r).head? with
        | some e => (RCUTILS_RET_OK, some (e.key, e.value))
        | none => ((RCUTILS_RET_HASH_MAP_NO_MORE_ENTRIES : RcutilsRet),
            (none : Option (List Char × Nat)))) =
        (RCUTILS_RET_OK, some (c.key, c.value)) from rfl]
    have hsplit : HashMap.entriesList m = [] ++ c :: r := by
      rw [hE]
      rfl
    have hfuel : (c :: r).length ≤ m.size + 1 := by
      have : m.size = (HashMap.entriesList m).length := hwf.2.2.2.2
      rw [hE] at this
      omega
    have hrec := purge_loop_char name name.length (m.size + 1) m [] r c hwf hsplit hfuel
    refine ⟨hrec.1, ?_⟩
    rw [hrec.2]
    rfl

/-- String boolean equality is symmetric. -/
theorem listCharBeq_symm (a b : List Char) : (a == b) = (b == a) := by
  by_cases h : a = b
  · rw [h]
  · have h1 : (a == b) = false := beq_eq_false_iff_ne.2 h
    have h2 : (b == a) = false := beq_eq_false_iff_ne.2 (fun e => h e.symm)
    rw [h1, h2]

/-- get on a well-formed severity map is lookup by key equality in the
flattened entry list: hit case. -/
theorem get_by_key_some (m : rcutils_hash_map_t (List Char) Nat)
    (hwf : HashMap.hashMapWF rcutils_hash_map_string_hash_func
      rcutils_hash_map_string_cmp_func m) (k : List Char)
    (e : rcutils_hash_map_entry_t (List Char) Nat)
    (hfound : (HashMap.entriesList m).find? (fun x => x.key == k) = some e) :
    HashMap.rcutils_hash_map_get rcutils_hash_map_string_hash_func
      rcutils_hash_map_string_cmp_func m k = (RCUTILS_RET_OK, some e.value) := by
  rw [HashMap.get_char rcutils_hash_map_string_hash_func
    rcutils_hash_map_string_cmp_func m k hwf]
  rw [HashMap.find?_congr_mem _ (fun x => x.key == k) _ (fun x hx =>
    matches_eq_key k x (stored_hash_of_mem m hwf x hx))]
  rw [hfound]

/-- get on a well-formed severity map is lookup by key equality in the
flattened entry list: miss case. -/
theorem get_by_key_none (m : rcutils_hash_map_t (List Char) Nat)
    (hwf : HashMap.hashMapWF rcutils_hash_map_string_hash_func
      rcutils_hash_map_string_cmp_func m) (k : List Char)
    (hmiss : (HashMap.entriesList m).find? (fun x => x.key == k) = none) :
    HashMap.rcutils_hash_map_get rcutils_hash_map_string_hash_func
      rcutils_hash_map_string_cmp_func m k = (RCUTILS_RET_NOT_FOUND, none) := by
  rw [HashMap.get_char rcutils_hash_map_string_hash_func
    rcutils_hash_map_string_cmp_func m k hwf]
  rw [HashMap.find?_congr_mem _ (fun x => x.key == k) _ (fun x hx =>
    matches_eq_key k x (stored_hash_of_mem m hwf x hx))]
  rw [hmiss]

/-- An entry with a different key and the user-set bit survives the
purge condition. -/
theorem should_purge_false_of_user (name : List Char)
    (e : rcutils_hash_map_entry_t (List Char) Nat)
    (hne : e.key ≠ name) (hodd : e.value % 2 = 1) :
    should_purge name name.length e.key e.value = false := by
  rw [should_purge]
  by_cases hpre : name.isPrefixOf e.key
  · rw [if_pos hpre]
    have hlen : ¬ e.key.length = name.length := by
      intro hl
      exact hne ((List.IsPrefix.eq_of_length
        (List.isPrefixOf_iff_prefix.1 hpre) hl.symm).symm)
    rw [if_neg hlen]
    simp [hodd]
  · rw [if_neg hpre]

/-- The purge condition holds on any entry keyed exactly by the name. -/
theorem should_purge_of_key_eq (name : List Char)
    (e : rcutils_hash_map_entry_t (List Char) Nat) (hk : e.key = name) :
    should_purge name name.length e.key e.value = true := by
  rw [should_purge, hk]
  rw [if_pos (List.isPrefixOf_iff_prefix.2 (List.prefix_refl name))]
  rw [if_pos rfl]

/-- After the purge, no entry is keyed by the purged name. -/
theorem find_none_after_purge (m : rcutils_hash_map_t (List Char) Nat)
    (name : List Char)
    (hwf : HashMap.hashMapWF rcutils_hash_map_string_hash_func
      rcutils_hash_map_string_cmp_func m) :
    HashMap.hash_map_find rcutils_hash_map_string_hash_func
      rcutils_hash_map_string_cmp_func (severity_map_purge m name) name = none := by
  obtain ⟨hwf1, hents1⟩ := severity_map_purge_char m name hwf
  have hfe := HashMap.find_entry_eq rcutils_hash_map_string_hash_func
    rcutils_hash_map_string_cmp_func (severity_map_purge m name) name hwf1
  have hnone : (HashMap.entriesList (severity_map_purge m name)).find?
      (HashMap.matches_ rcutils_hash_map_string_cmp_func
        (rcutils_hash_map_string_hash_func name) name) = none := by
    rw [List.find?_eq_none]
    intro x hx
    have hxm : HashMap.matches_ rcutils_hash_map_string_cmp_func
        (rcutils_hash_map_string_hash_func name) name x = (x.key == name) :=
      matches_eq_key name x (stored_hash_of_mem _ hwf1 x hx)
    rw [hxm]
    simp only [beq_eq_false_iff_ne, ne_eq]
    intro hk
    rw [hents1] at hx
    obtain ⟨-, hkeep⟩ := List.mem_filter.1 hx
    rw [should_purge_of_key_eq name x (beq_iff_eq.1 hk)] at hkeep
    simp at hkeep
  rw [hnone] at hfe
  exact Option.map_eq_none'.1 hfe

/-- Adding a user-set level for an absent name succeeds and leaves every
other entry's lookup unchanged. -/
theorem add_key_get_other (m1 : rcutils_hash_map_t (List Char) Nat)
    (name : List Char) (lvl : Nat)
    (hwf1 : HashMap.hashMapWF rcutils_hash_map_string_hash_func
      rcutils_hash_map_string_cmp_func m1)
    (hfind1 : HashMap.hash_map_find rcutils_hash_map_string_hash_func
      rcutils_hash_map_string_cmp_func m1 name = none)
    (e : rcutils_hash_map_entry_t (List Char) Nat)
    (he1 : e ∈ HashMap.entriesList m1) (hne : e.key ≠ name) :
    ∃ m2, add_key_to_hash_map m1 name lvl true = (RCUTILS_RET_OK, m2) ∧
      m2.size ≠ 0 ∧
      HashMap.rcutils_hash_map_get rcutils_hash_map_string_hash_func
        rcutils_hash_map_string_cmp_func m2 e.key = (RCUTILS_RET_OK, some e.value) := by
  rcases hs : HashMap.rcutils_hash_map_set rcutils_hash_map_string_hash_func
      rcutils_hash_map_string_cmp_func m1 name (lvl ||| 1) allOk with ⟨rs, m2⟩
  have horig := hs
  rw [HashMap.rcutils_hash_map_set] at hs
  simp only [hfind1] at hs
  rw [if_neg (by decide)] at hs
  rw [if_neg (by decide)] at hs
  rw [show allOk.bucket_init_ok = true from rfl,
    show allOk.bucket_add_ok = true from rfl] at hs
  rcases hins : HashMap.hash_map_insert_entry m1.map
      (rcutils_hash_map_string_hash_func name &&& (m1.map.length - 1))
      { hashed_key := rcutils_hash_map_string_hash_func name, key := name,
        value := lvl ||| 1 } true true with ⟨ri, map1⟩
  have hriOK : ri = RCUTILS_RET_OK := by
    have h := HashMap.insert_entry_true_ok m1.map
      (rcutils_hash_map_string_hash_func name &&& (m1.map.length - 1))
      { hashed_key := rcutils_hash_map_string_hash_func name, key := name,
        value := lvl ||| 1 }
    rw [hins] at h
    exact h
  subst hriOK
  simp only [hins] at hs
  simp only [Prod.mk.injEq] at hs
  obtain ⟨hrs, hm2⟩ := hs
  subst hrs
  have hidx : rcutils_hash_map_string_hash_func name &&& (m1.map.length - 1) =
      rcutils_hash_map_string_hash_func name % m1.map.length :=
    HashMap.cap_index_eq rcutils_hash_map_string_hash_func
      rcutils_hash_map_string_cmp_func m1 hwf1 _
  have hmap1 := HashMap.insert_entry_ok _ _ _ _ _ _ hins
  rw [hidx] at hmap1
  have hidxlt : rcutils_hash_map_string_hash_func name % m1.map.length <
      m1.map.length := Nat.mod_lt _ (Nat.pos_of_ne_zero hwf1.1)
  obtain ⟨hwf2, hfind2⟩ := HashMap.wf_insert rcutils_hash_map_string_hash_func
    rcutils_hash_map_string_cmp_func m1 name (lvl ||| 1) hwf1
    (beq_self_eq_true name) (fun a b => listCharBeq_symm a b)
    (fun a b h => by rw [beq_iff_eq.1 h]) hfind1
  rw [hmap1] at hm2
  set newe : rcutils_hash_map_entry_t (List Char) Nat :=
    ⟨rcutils_hash_map_string_hash_func name, name, lvl ||| 1⟩ with hnewe
  set idx := rcutils_hash_map_string_hash_func name % m1.map.length with hidxd
  set m2pre : rcutils_hash_map_t (List Char) Nat :=
    ⟨m1.map.set idx (some (((m1.map.getD idx none).getD []) ++ [newe])), m1.size + 1⟩
    with hm2pred
  have hent2 : HashMap.entriesList m2pre =
      HashMap.flatB (m1.map.take idx) ++
        (((m1.map.getD idx none).getD []) ++ [newe]) ++
        HashMap.flatB (m1.map.drop (idx + 1)) := by
    show HashMap.flatB
      (m1.map.set idx (some (((m1.map.getD idx none).getD []) ++ [newe]))) = _
    rw [HashMap.flatB_set _ _ _ hidxlt]
    rfl
  have hfound : (HashMap.entriesList m2pre).find? (fun x => x.key == e.key) =
      some e := by
    rw [hent2]
    rw [HashMap.find?_middle_false (fun x => x.key == e.key)
      (HashMap.flatB (m1.map.take idx)) ((m1.map.getD idx none).getD [])
      (HashMap.flatB (m1.map.drop (idx + 1))) newe
      (beq_eq_false_iff_ne.2 (fun h => hne h.symm))]
    rw [← HashMap.flatB_decompose m1.map _ hidxlt]
    exact find?_unique_key (HashMap.flatB m1.map) hwf1.2.2.2.1 e he1
  have hwf2' : HashMap.hashMapWF rcutils_hash_map_string_hash_func
      rcutils_hash_map_string_cmp_func m2pre := hwf2
  have hgetpre := get_by_key_some m2pre hwf2' e.key e hfound
  rcases hgr : HashMap.hash_map_check_and_grow_map m2pre true with ⟨r2, m2'⟩
  rw [show allOk.grow_ok = true from rfl] at hm2
  rw [hgr] at hm2
  have hm2' : m2' = m2 := hm2
  have hgg := HashMap.grow_get rcutils_hash_map_string_hash_func
    rcutils_hash_map_string_cmp_func m2pre true r2 m2' hwf2' hgr e.key
  have hsize2 : m2.size ≠ 0 := by
    rw [← hm2']
    have h := HashMap.grow_size m2pre true
    rw [hgr] at h
    show m2'.size ≠ 0
    rw [h]
    show m1.size + 1 ≠ 0
    simp
  refine ⟨m2, ?_, hsize2, ?_⟩
  · rw [add_key_to_hash_map]
    simp [horig]
  · rw [← hm2', hgg, hgetpre]

end Logging

/-- C2 (amended): when set_logger_level(name, level) runs, the purge over
the severity map removes exactly the entry whose key equals name
(unconditionally) and every entry whose key merely starts with name —
with or without a '.' separator — that has bit 0 clear (a cached entry);
entries with bit 0 set (user-set) and keys different from name survive,
so for every user-set entry with a non-UNSET level and a key other than
name, a set_logger_level(name, other) succeeds and leaves
get_effective_level of that key returning its user-set value. -/
theorem C2_theorem (st st2 : LoggingState) (ret : RcutilsRet)
    (name : List Char) (other : Nat)
    (e : rcutils_hash_map_entry_t (List Char) Nat)
    (hvalid : st.severities_map_valid = true)
    (hwf : HashMap.hashMapWF Logging.rcutils_hash_map_string_hash_func
      Logging.rcutils_hash_map_string_cmp_func st.severities_map)
    (hlevel : g_rcutils_log_severity_names.getD other none ≠ none)
    (he_mem : e ∈ HashMap.entriesList st.severities_map)
    (he_ne : e.key ≠ name)
    (he_user : e.value % 2 = 1)
    (he_set : e.value &&& 0xFFFFFFFE ≠ RCUTILS_LOG_SEVERITY_UNSET)
    (hset : rcutils_logging_set_logger_level st name other = (ret, st2)) :
    (∀ m' : rcutils_hash_map_t (List Char) Nat,
      HashMap.hashMapWF Logging.rcutils_hash_map_string_hash_func
        Logging.rcutils_hash_map_string_cmp_func m' →
      HashMap.entriesList (severity_map_purge m' name) =
        (HashMap.entriesList m').filter
          (fun x => !should_purge name name.length x.key x.value)) ∧
    ret = RCUTILS_RET_OK ∧
    rcutils_logging_get_logger_effective_level st2 e.key =
      e.value &&& 0xFFFFFFFE := by
  refine ⟨fun m' hwf' => (severity_map_purge_char m' name hwf').2, ?_⟩
  rw [rcutils_logging_set_logger_level] at hset
  rw [if_neg (by rw [hvalid]; simp)] at hset
  have hlt : ¬ 51 ≤ other := by
    intro hge
    apply hlevel
    apply List.getD_eq_default
    simpa [g_rcutils_log_severity_names] using hge
  rw [if_neg hlt] at hset
  rcases hgl : g_rcutils_log_severity_names.getD other none with _ | svn
  · exact absurd hgl hlevel
  · simp only [hgl] at hset
    by_cases hke : HashMap.rcutils_hash_map_key_exists
        Logging.rcutils_hash_map_string_hash_func
        Logging.rcutils_hash_map_string_cmp_func st.severities_map name = true
    · rw [if_pos hke] at hset
      obtain ⟨hwf1, hents1⟩ := severity_map_purge_char st.severities_map name hwf
      have hfind1 := find_none_after_purge st.severities_map name hwf
      have he1 : e ∈ HashMap.entriesList (severity_map_purge st.severities_map name) := by
        rw [hents1]
        refine List.mem_filter.2 ⟨he_mem, ?_⟩
        rw [should_purge_false_of_user name e he_ne he_user]
        rfl
      obtain ⟨m2, haeq, hsz2, hget2⟩ := add_key_get_other
        (severity_map_purge st.severities_map name) name other hwf1 hfind1 e he1 he_ne
      simp only [haeq] at hset
      simp only [Prod.mk.injEq] at hset
      obtain ⟨hr, hst2⟩ := hset
      subst hr
      refine ⟨rfl, ?_⟩
      rw [← hst2]
      rw [rcutils_logging_get_logger_effective_level]
      dsimp only
      rw [if_neg hsz2]
      rw [show get_severity_level m2 e.key =
          (RCUTILS_RET_OK, some (e.value &&& 0xFFFFFFFE)) from by
        rw [get_severity_level]
        simp only [hget2]]
      dsimp only
      rw [if_pos he_set]
    · rw [if_neg hke] at hset
      have hkef : HashMap.rcutils_hash_map_key_exists
          Logging.rcutils_hash_map_string_hash_func
          Logging.rcutils_hash_map_string_cmp_func st.severities_map name = false := by
        rcases hb : HashMap.rcutils_hash_map_key_exists
            Logging.rcutils_hash_map_string_hash_func
            Logging.rcutils_hash_map_string_cmp_func st.severities_map name with _ | _
        · rfl
        · exact absurd hb hke
      have hfind1 := HashMap.key_exists_false_find_none
        Logging.rcutils_hash_map_string_hash_func
        Logging.rcutils_hash_map_string_cmp_func st.severities_map name hwf hkef
      obtain ⟨m2, haeq, hsz2, hget2⟩ := add_key_get_other
        st.severities_map name other hwf hfind1 e he_mem he_ne
      simp only [haeq] at hset
      simp only [Prod.mk.injEq] at hset
      obtain ⟨hr, hst2⟩ := hset
      subst hr
      refine ⟨rfl, ?_⟩
      rw [← hst2]
      rw [rcutils_logging_get_logger_effective_level]
      dsimp only
      rw [if_neg hsz2]
      rw [show get_severity_level m2 e.key =
          (RCUTILS_RET_OK, some (e.value &&& 0xFFFFFFFE)) from by
        rw [get_severity_level]
        simp only [hget2]]
      dsimp only
      rw [if_pos he_set]

/-- C2 counterexample: the purge has no '.'-separator check.  With "a"
user-set (value 41, bit 0 set) and "ab" present as a cached entry (value
20, bit 0 clear), set_logger_level("a", 30) removes "ab" even though
"ab" merely extends "a" without a '.' separator; the claim says such
keys are left untouched. -/
theorem C2_counterexample :
    (Logging.rcutils_logging_set_logger_level
      ⟨⟨[some [⟨Logging.rcutils_hash_map_string_hash_func "a".data, "a".data, 41⟩,
        ⟨Logging.rcutils_hash_map_string_hash_func "ab".data, "ab".data, 20⟩]], 2⟩,
        true, 20⟩ "a".data 30).1 = RCUTILS_RET_OK ∧
    ("a".data : List Char).isPrefixOf "ab".data = true ∧
    ("ab".data : List Char).getD 1 '.' ≠ '.' ∧
    (20 : Nat) % 2 = 0 ∧
    HashMap.rcutils_hash_map_key_exists Logging.rcutils_hash_map_string_hash_func
      Logging.rcutils_hash_map_string_cmp_func
      (Logging.rcutils_logging_set_logger_level
        ⟨⟨[some [⟨Logging.rcutils_hash_map_string_hash_func "a".data, "a".data, 41⟩,
          ⟨Logging.rcutils_hash_map_string_hash_func "ab".data, "ab".data, 20⟩]], 2⟩,
          true, 20⟩ "a".data 30).2.severities_map "ab".data = false := by
  decide

/-- The one-entry severity map holding the user-set "a.b" level 41 is
well-formed. -/
theorem wf_ab_map :
    HashMap.hashMapWF Logging.rcutils_hash_map_string_hash_func
      Logging.rcutils_hash_map_string_cmp_func
      ⟨[some [⟨Logging.rcutils_hash_map_string_hash_func "a.b".data, "a.b".data, 41⟩]],
        1⟩ := by
  refine ⟨by decide, ⟨0, rfl⟩, ?_, by decide, rfl⟩
  intro i b hb
  rcases i with _ | i
  · simp [List.getD] at hb
    subst hb
    exact ⟨rfl, Nat.mod_one _⟩
  · simp [List.getD] at hb

/-- Witness for C2: with "a.b" user-set to level 40 (stored as 41), a
set_logger_level("a", 30) succeeds and get_effective_level("a.b") still
returns 40. -/
theorem C2_witness :
    (∀ m' : rcutils_hash_map_t (List Char) Nat,
      HashMap.hashMapWF Logging.rcutils_hash_map_string_hash_func
        Logging.rcutils_hash_map_string_cmp_func m' →
      HashMap.entriesList (Logging.severity_map_purge m' "a".data) =
        (HashMap.entriesList m').filter
          (fun x => !Logging.should_purge "a".data ("a".data : List Char).length
            x.key x.value)) ∧
    (Logging.rcutils_logging_set_logger_level
      ⟨⟨[some [⟨Logging.rcutils_hash_map_string_hash_func "a.b".data, "a.b".data, 41⟩]],
        1⟩, true, 20⟩ "a".data 30).1 = RCUTILS_RET_OK ∧
    Logging.rcutils_logging_get_logger_effective_level
      (Logging.rcutils_logging_set_logger_level
        ⟨⟨[some [⟨Logging.rcutils_hash_map_string_hash_func "a.b".data, "a.b".data,
          41⟩]], 1⟩, true, 20⟩ "a".data 30).2 "a.b".data = 40 :=
  C2_theorem ⟨⟨[some [⟨Logging.rcutils_hash_map_string_hash_func "a.b".data,
      "a.b".data, 41⟩]], 1⟩, true, 20⟩ _ _ "a".data 30
    ⟨Logging.rcutils_hash_map_string_hash_func "a.b".data, "a.b".data, 41⟩
    rfl wf_ab_map (by decide) (by decide) (by decide) (by decide) (by decide) rfl

end Rcutils
